import Mathlib

/-!
# Streaming consumer of `static/app.js` (class `SubdomainDiscovery`)

A shallow embedding of the client in `src/static/app.js`: the line framer inside
`streamResults`, the decoder `processStreamLine`, the aggregator `addSubdomain`, the
notifications written to the page, and the lifecycle driven by `handleSubmit`,
`startSearch` and `stopSearch`.

Conventions of the embedding.

* A text that reaches the code from the decoder, the input or the page is a list of
  characters (`Text`); on it the operations used by the source (`split('\n')`, `startsWith`,
  `substring(6)`, `===`, `trim`, the regular expression) only look at characters of the Basic
  Latin block and at white space, so code units and characters agree for them.  A string
  value read by `JSON.parse` is a list of UTF-16 code units (`JsString`).
* A chunk is the text that `decoder.decode(value, { stream: true })` returns for one read.
* `JSON.parse` is a host function.  Every definition that calls it takes it as the argument
  `parse`; `jsonParse` is an executable reader of the JSON grammar, used to run the model on
  concrete streams.
* An `async` function is a sequence of handlers, one per `await`; the handlers of
  `streamResults` are driven by the events of `Event`.
* The page `index.html` is not part of the source.  The element `#searchBtn` is taken to be
  the submit button of `#searchForm`, so the host delivers no submit event while
  `validateInput` keeps it disabled.
* The field `log` of `App` is a history variable: it records the calls that tell the user
  something (`showLoadingState`, `appendChild` of an item, `showCompletionState`,
  `showError`, `stopSearch`) in the order in which they happen.  No definition reads it.
-/

namespace SubdomainDiscovery

/-- A text delivered by the host as well-formed Unicode: what `TextDecoder` returns for the
stream, what the user types, what the page shows. -/
abbrev Text := List Char

/-- A string value of the host language: its UTF-16 code units, which may hold unpaired
surrogates. -/
abbrev JsString := List Nat

/-- The code units of one character. -/
def utf16Char (c : Char) : List Nat :=
  if c.toNat < 0x10000 then [c.toNat]
  else [0xD800 + (c.toNat - 0x10000) / 0x400, 0xDC00 + (c.toNat - 0x10000) % 0x400]

/-- The string value that holds a text. -/
def utf16 (t : Text) : JsString :=
  (t.map utf16Char).flatten

/-! ## String primitives of the host -/

/-- Puts a character in front of the first piece of a split text. -/
def pushFront (c : Char) : List Text → List Text
  | [] => [[c]]
  | piece :: pieces => (c :: piece) :: pieces

/-- The array returned by `text.split('\n')`: the pieces between newline characters.
It always has at least one element, and `''.split('\n')` is `['']`. -/
def split : Text → List Text
  | [] => [[]]
  | c :: cs => if c = '\n' then [] :: split cs else pushFront c (split cs)

/-- The value returned by `lines.pop()` on the array produced by `split`: its last element. -/
def pop (lines : List Text) : Text :=
  lines.getLastD []

/-- The array left behind by `lines.pop()`. -/
def popRest (lines : List Text) : List Text :=
  lines.dropLast

/-- The test `line.startsWith(marker)`. -/
def startsWith (line marker : Text) : Bool :=
  marker.isPrefixOf line

/-- The text `line.substring(n)`. -/
def substring (line : Text) (n : Nat) : Text :=
  line.drop n

/-! ## Values of the host language -/

/-- A JavaScript value as far as `JSON.parse` and property reads can produce it.  A number is
given by its IEEE 754 binary64 bit pattern.  Arrays and objects are given by their content;
their identity is accounted for in `sameValueZero`. -/
inductive JsValue where
  | undefined
  | null
  | bool (b : Bool)
  | number (bits : Nat)
  | string (s : JsString)
  | array (elements : List JsValue)
  | object (members : List (JsString × JsValue))

/-- The exceptions that the embedded code can meet. -/
inductive JsError where
  | SyntaxError
  | TypeError
  deriving DecidableEq

/-- The bit pattern is `+0` or `-0`. -/
def isZeroBits (bits : Nat) : Bool :=
  bits % 2 ^ 63 == 0

/-- The bit pattern is a NaN. -/
def isNaNBits (bits : Nat) : Bool :=
  (bits / 2 ^ 52) % 2 ^ 11 == 2047 && bits % 2 ^ 52 != 0

/-- The conversion `ToBoolean`, applied by `&&` and `if`. -/
def truthy : JsValue → Bool
  | .undefined => false
  | .null => false
  | .bool b => b
  | .number bits => !(isZeroBits bits || isNaNBits bits)
  | .string s => !s.isEmpty
  | .array _ => true
  | .object _ => true

/-- The property name `subdomain`. -/
def subdomainKey : JsString := utf16 "subdomain".toList

/-- The property name `source`. -/
def sourceKey : JsString := utf16 "source".toList

/-- The property name `toString`. -/
def toStringKey : JsString := utf16 "toString".toList

/-- The string `'Certificate Transparency'`. -/
def certificateTransparency : JsString := utf16 "Certificate Transparency".toList

/-- The own property `name` of an object, `undefined` when there is none. -/
def ownProperty : List (JsString × JsValue) → JsString → JsValue
  | [], _ => .undefined
  | (key, value) :: members, name => if key = name then value else ownProperty members name

/-- The property read `value.name`, for a name that no built-in prototype defines (the source
reads `subdomain` and `source` only): a `TypeError` on `null` and `undefined`, the own
property on an object, `undefined` on every other value. -/
def getProp (value : JsValue) (name : JsString) : Except JsError JsValue :=
  match value with
  | .undefined => .error .TypeError
  | .null => .error .TypeError
  | .object members => .ok (ownProperty members name)
  | _ => .ok .undefined

/-- The comparison `SameValueZero` used by `Set.prototype.has`, between a key already in the
set and a value just read from a fresh result of `JSON.parse`.  An array or an object is only
equal to itself, and every call of `JSON.parse` allocates new ones, so it equals no stored key. -/
def sameValueZero : JsValue → JsValue → Bool
  | .undefined, .undefined => true
  | .null, .null => true
  | .bool a, .bool b => a == b
  | .number a, .number b =>
    a == b || (isZeroBits a && isZeroBits b) || (isNaNBits a && isNaNBits b)
  | .string a, .string b => a == b
  | _, _ => false

/-- The test `key in members` for own properties. -/
def hasOwn : List (JsString × JsValue) → JsString → Bool
  | [], _ => false
  | (key, _) :: members, name => key == name || hasOwn members name

mutual
/-- The conversion `ToString` throws a `TypeError`: the value is an object whose own property
`toString` hides the built-in method (a value read by `JSON.parse` is never callable), or an
array with such an element. -/
def toStringThrows : JsValue → Bool
  | .object members => hasOwn members toStringKey
  | .array elements => anyToStringThrows elements
  | _ => false
/-- Some element of the array makes `ToString` throw. -/
def anyToStringThrows : List JsValue → Bool
  | [] => false
  | element :: elements => toStringThrows element || anyToStringThrows elements
end

/-! ## An executable reader for JSON texts -/

/-- White space of the JSON grammar. -/
def isJsonSpace (c : Char) : Bool :=
  c == ' ' || c == '\t' || c == '\n' || c == '\r'

/-- Drops leading JSON white space. -/
def skipSpace : Text → Text
  | [] => []
  | c :: cs => if isJsonSpace c then skipSpace cs else c :: cs

/-- The value of a hexadecimal digit. -/
def hexValue (c : Char) : Option Nat :=
  if '0' ≤ c ∧ c ≤ '9' then some (c.toNat - '0'.toNat)
  else if 'a' ≤ c ∧ c ≤ 'f' then some (c.toNat - 'a'.toNat + 10)
  else if 'A' ≤ c ∧ c ≤ 'F' then some (c.toNat - 'A'.toNat + 10)
  else none

/-- The code unit written by the four hexadecimal digits of a `\u` escape. -/
def hex4 (a b c d : Char) : Option Nat :=
  match hexValue a, hexValue b, hexValue c, hexValue d with
  | some w, some x, some y, some z => some (((w * 16 + x) * 16 + y) * 16 + z)
  | _, _, _, _ => none

/-- Reads a string literal after its opening quote.  `acc` holds the code units read so far,
latest first.  Returns the string and the text after the closing quote. -/
def readString : Text → List Nat → Option (JsString × Text)
  | [], _ => none
  | '"' :: rest, acc => some (acc.reverse, rest)
  | '\\' :: 'u' :: a :: b :: c :: d :: rest, acc =>
    match hex4 a b c d with
    | some unit => readString rest (unit :: acc)
    | none => none
  | '\\' :: e :: rest, acc =>
    match e with
    | '"' => readString rest (0x22 :: acc)
    | '\\' => readString rest (0x5C :: acc)
    | '/' => readString rest (0x2F :: acc)
    | 'b' => readString rest (0x08 :: acc)
    | 'f' => readString rest (0x0C :: acc)
    | 'n' => readString rest (0x0A :: acc)
    | 'r' => readString rest (0x0D :: acc)
    | 't' => readString rest (0x09 :: acc)
    | _ => none
  | c :: rest, acc =>
    if c.toNat < 0x20 ∨ c = '\\' then none
    else readString rest ((utf16Char c).reverse ++ acc)

/-- Reads a run of decimal digits: the number of digits, their value and the rest. -/
def readDigits : Text → Nat → Nat → Nat × Nat × Text
  | [], count, value => (count, value, [])
  | c :: cs, count, value =>
    if '0' ≤ c ∧ c ≤ '9' then readDigits cs (count + 1) (value * 10 + (c.toNat - '0'.toNat))
    else (count, value, c :: cs)

/-- The position of the highest set bit of `n`, searched with `fuel` halvings. -/
def floorLog2Fuel : Nat → Nat → Nat
  | 0, _ => 0
  | fuel + 1, n => if n < 2 then 0 else floorLog2Fuel fuel (n / 2) + 1

/-- The position of the highest set bit: the largest `k` with `2 ^ k ≤ n`, for `n` positive. -/
def floorLog2 (n : Nat) : Nat :=
  floorLog2Fuel n n

/-- The binary64 bit pattern nearest to `mantissa * 10 ^ exponent` (ties to even), with the
sign bit set when `negative`. -/
def toBinary64 (negative : Bool) (mantissa : Nat) (exponent : Int) : Nat :=
  let sign := if negative then 2 ^ 63 else 0
  if mantissa = 0 then sign
  else
    let num := if 0 ≤ exponent then mantissa * 10 ^ exponent.toNat else mantissa
    let den := if 0 ≤ exponent then 1 else 10 ^ (-exponent).toNat
    let k0 : Int := (floorLog2 num : Int) - (floorLog2 den : Int)
    let below : Bool :=
      if 0 ≤ k0 then decide (num < den * 2 ^ k0.toNat) else decide (num * 2 ^ (-k0).toNat < den)
    let k : Int := if below then k0 - 1 else k0
    let q : Int := max k (-1022) - 52
    let scaledNum := if 0 ≤ q then num else num * 2 ^ (-q).toNat
    let scaledDen := if 0 ≤ q then den * 2 ^ q.toNat else den
    let quotient := scaledNum / scaledDen
    let remainder := scaledNum % scaledDen
    let roundUp : Bool :=
      decide (scaledDen < 2 * remainder) || (decide (2 * remainder = scaledDen) && quotient % 2 == 1)
    let rounded := if roundUp then quotient + 1 else quotient
    let carry : Bool := rounded == 2 ^ 53
    let significand := if carry then 2 ^ 52 else rounded
    let q := if carry then q + 1 else q
    if significand < 2 ^ 52 then sign + significand
    else
      let biased := (q + 52 + 1023).toNat
      if 2047 ≤ biased then sign + 2047 * 2 ^ 52
      else sign + biased * 2 ^ 52 + (significand - 2 ^ 52)

/-- Reads a number literal: `-? (0 | [1-9][0-9]*) (. [0-9]+)? ([eE] [+-]? [0-9]+)?`. -/
def readNumber (t : Text) : Option (JsValue × Text) :=
  let negative := t.head? == some '-'
  let t := if negative then t.drop 1 else t
  let (intCount, intValue, afterInt) := readDigits t 0 0
  if intCount = 0 ∨ (1 < intCount ∧ t.head? == some '0') then none
  else
    let fraction : Option (Nat × Nat × Text) :=
      match afterInt with
      | '.' :: cs =>
        let (count, value, rest) := readDigits cs 0 intValue
        if count = 0 then none else some (count, value, rest)
      | _ => some (0, intValue, afterInt)
    match fraction with
    | none => none
    | some (fracCount, mantissa, afterFrac) =>
      let finish (exponent : Int) (rest : Text) : Option (JsValue × Text) :=
        some (.number (toBinary64 negative mantissa (exponent - fracCount)), rest)
      match afterFrac with
      | c :: cs =>
        if c = 'e' ∨ c = 'E' then
          let expNegative := cs.head? == some '-'
          let cs := if cs.head? == some '-' ∨ cs.head? == some '+' then cs.drop 1 else cs
          let (count, value, rest) := readDigits cs 0 0
          if count = 0 then none
          else finish (if expNegative then -(value : Int) else value) rest
        else finish 0 afterFrac
      | [] => finish 0 afterFrac

/-- Sets the member `key` of an object under construction: a repeated key keeps its place and
takes the later value. -/
def setMember :
    List (JsString × JsValue) → JsString → JsValue → List (JsString × JsValue)
  | [], key, value => [(key, value)]
  | (k, v) :: members, key, value =>
    if k = key then (k, value) :: members else (k, v) :: setMember members key value

mutual
/-- Reads one JSON value at the start of the text (no leading white space). -/
def readValue : Nat → Text → Option (JsValue × Text)
  | 0, _ => none
  | fuel + 1, t =>
    match t with
    | 'n' :: 'u' :: 'l' :: 'l' :: rest => some (.null, rest)
    | 't' :: 'r' :: 'u' :: 'e' :: rest => some (.bool true, rest)
    | 'f' :: 'a' :: 'l' :: 's' :: 'e' :: rest => some (.bool false, rest)
    | '"' :: rest =>
      match readString rest [] with
      | some (s, rest) => some (.string s, rest)
      | none => none
    | '[' :: rest =>
      match skipSpace rest with
      | ']' :: rest => some (.array [], rest)
      | rest =>
        match readElements fuel rest with
        | some (elements, rest) => some (.array elements, rest)
        | none => none
    | '{' :: rest =>
      match skipSpace rest with
      | '}' :: rest => some (.object [], rest)
      | rest =>
        match readMembers fuel rest [] with
        | some (members, rest) => some (.object members, rest)
        | none => none
    | _ => readNumber t
/-- Reads the elements of a non-empty array up to and including the closing bracket. -/
def readElements : Nat → Text → Option (List JsValue × Text)
  | 0, _ => none
  | fuel + 1, t =>
    match readValue fuel (skipSpace t) with
    | none => none
    | some (element, rest) =>
      match skipSpace rest with
      | ']' :: rest => some ([element], rest)
      | ',' :: rest =>
        match readElements fuel rest with
        | some (elements, rest) => some (element :: elements, rest)
        | none => none
      | _ => none
/-- Reads the members of a non-empty object up to and including the closing brace. -/
def readMembers :
    Nat → Text → List (JsString × JsValue) → Option (List (JsString × JsValue) × Text)
  | 0, _, _ => none
  | fuel + 1, t, members =>
    match skipSpace t with
    | '"' :: rest =>
      match readString rest [] with
      | none => none
      | some (key, rest) =>
        match skipSpace rest with
        | ':' :: rest =>
          match readValue fuel (skipSpace rest) with
          | none => none
          | some (value, rest) =>
            match skipSpace rest with
            | '}' :: rest => some (setMember members key value, rest)
            | ',' :: rest => readMembers fuel rest (setMember members key value)
            | _ => none
        | _ => none
    | _ => none
end

/-- A model of `JSON.parse(text)`: the value written by the text, or a `SyntaxError`. -/
def jsonParse (text : Text) : Except JsError JsValue :=
  match readValue (2 * text.length + 2) (skipSpace text) with
  | some (value, rest) => if skipSpace rest = [] then .ok value else .error .SyntaxError
  | none => .error .SyntaxError

/-! ## Line framer (the body of the `while` loop of `streamResults`) -/

/-- One turn of the loop, without the calls of `processStreamLine`:
`buffer += chunk; lines = buffer.split('\n'); buffer = lines.pop()`.
Returns the lines handed to the `for` loop and the new buffer. -/
def feed (buffer chunk : Text) : List Text × Text :=
  let lines := split (buffer ++ chunk)
  (popRest lines, pop lines)

/-- The loop over a sequence of chunks: all lines handed to `processStreamLine`, in order,
and the buffer left when the chunks are exhausted. -/
def frame : Text → List Text → List Text × Text
  | buffer, [] => ([], buffer)
  | buffer, chunk :: chunks =>
    let fed := feed buffer chunk
    let rest := frame fed.2 chunks
    (fed.1 ++ rest.1, rest.2)

/-! ## The page and the object -/

/-- The element built by `createSubdomainItem`: the value whose string conversion is shown
as the name, and the class and text of the source label. -/
structure SubdomainItem where
  subdomain : JsValue
  sourceClass : Text
  sourceText : Text

/-- The content of the element `#results`.  The source only ever assigns one of four
templates to it; `initial` is the content given by the page itself.  The classes
`results-container`, `search-status`, `status-count` and `progress-indicator` are taken to
occur nowhere else in the document.  `statusCount n` stands for the text `n found`. -/
inductive ResultsView where
  | initial
  | loading (domain : Text) (progressHidden : Bool)
  | results (searchStatus : Text) (progressHidden : Bool) (statusCount : Nat)
      (items : List SubdomainItem)
  | noSubdomains
  | error (message : Text)

/-- What the user is told, recorded in the order of the calls that tell it. -/
inductive Notification where
  | started (domain : Text)
  | result (item : SubdomainItem)
  | completed
  | noResults
  | error (message : Text)
  | stopped

/-- The fields of the `SubdomainDiscovery` object, the part of the page it writes to, the
`EventSource` connections of the host, and the history of notifications. -/
structure App where
  /-- Field `currentEventSource`: the handle of an `EventSource`, or `null`. -/
  currentEventSource : Option Nat
  /-- Field `foundSubdomains`: the keys of the `Set` in insertion order. -/
  foundSubdomains : List JsValue
  /-- Field `isSearching`. -/
  isSearching : Bool
  /-- Content of `#results`. -/
  resultsDiv : ResultsView
  /-- Text of `.btn-text`. -/
  btnText : Text
  /-- Value of the input `#domain`. -/
  domainValue : Text
  /-- Flag `disabled` of the button `#searchBtn`. -/
  searchBtnDisabled : Bool
  /-- Handles of the `EventSource` objects that were created and not closed. -/
  openEventSources : List Nat
  /-- Handle of the next `EventSource`. -/
  nextEventSource : Nat
  /-- Arguments of the calls of `console.warn`. -/
  console : List Text
  /-- History of notifications. -/
  log : List Notification

/-- A request of `fetch` issued by `streamResults`, with the local variable `buffer` of that
invocation: `none` while the `fetch` promise is pending, `some buffer` inside the loop. -/
structure ResponseStream where
  id : Nat
  buffer : Option Text

/-- The object and page together with the invocations of `streamResults` that have not
ended. -/
structure State where
  app : App
  /-- Requests that have not ended: pending or with a body being read. -/
  streams : List ResponseStream
  /-- Identifier of the next request. -/
  nextStream : Nat

/-- The state left by the constructor, on a page whose button shows `label` and is disabled or
not as `disabled` says, and whose input holds `value`. -/
def constructed (label value : Text) (disabled : Bool) : State where
  app :=
    { currentEventSource := none
      foundSubdomains := []
      isSearching := false
      resultsDiv := .initial
      btnText := label
      domainValue := value
      searchBtnDisabled := disabled
      openEventSources := []
      nextEventSource := 0
      console := []
      log := [] }
  streams := []
  nextStream := 0

/-- The test `foundSubdomains.has(key)`. -/
def setHas (keys : List JsValue) (key : JsValue) : Bool :=
  keys.any (fun stored => sameValueZero stored key)

/-- White space and line terminators removed by `String.prototype.trim`. -/
def isTrimmed (c : Char) : Bool :=
  let n := c.toNat
  n == 0x09 || n == 0x0A || n == 0x0B || n == 0x0C || n == 0x0D || n == 0x20 || n == 0xA0 ||
  n == 0x1680 || (0x2000 ≤ n && n ≤ 0x200A) || n == 0x2028 || n == 0x2029 || n == 0x202F ||
  n == 0x205F || n == 0x3000 || n == 0xFEFF

/-- The text `value.trim()`. -/
def trim (value : Text) : Text :=
  ((value.dropWhile isTrimmed).reverse.dropWhile isTrimmed).reverse

/-- The class `[a-zA-Z]`. -/
def isLetter (c : Char) : Bool :=
  decide ('a' ≤ c ∧ c ≤ 'z') || decide ('A' ≤ c ∧ c ≤ 'Z')

/-- The class `[a-zA-Z0-9]`. -/
def isLetterOrDigit (c : Char) : Bool :=
  isLetter c || decide ('0' ≤ c ∧ c ≤ '9')

/-- The pattern `[a-zA-Z]{2,}` on a whole text. -/
def isLetters2 (t : Text) : Bool :=
  decide (2 ≤ t.length) && t.all isLetter

/-- The test of the regular expression of `validateInput`,
`^[a-zA-Z0-9][a-zA-Z0-9-]*[a-zA-Z0-9]*\.([a-zA-Z]{2,}|[a-zA-Z]{2,}\.[a-zA-Z]{2,})$`.
No class before `\.` admits a dot, so `\.` is the first dot of the text: before it stands a
letter or digit followed by letters, digits and hyphens, and after it one or two dot-separated
runs of at least two letters. -/
def domainPattern (domain : Text) : Bool :=
  let label := domain.takeWhile (fun c => c != '.')
  let rest := domain.dropWhile (fun c => c != '.')
  match label, rest with
  | first :: others, _ :: suffix =>
    let top := suffix.takeWhile (fun c => c != '.')
    let last := suffix.dropWhile (fun c => c != '.')
    isLetterOrDigit first && others.all (fun c => isLetterOrDigit c || c == '-') &&
      isLetters2 top &&
      (match last with
        | [] => true
        | _ :: second => isLetters2 second)
  | _, _ => false

/-- The method `validateInput`. -/
def validateInput (s : App) : App :=
  let domain := trim s.domainValue
  let isValid := !domain.isEmpty && domainPattern domain
  { s with searchBtnDisabled := !isValid || s.isSearching }

/-- The method `updateUI`: the text of the button, then `validateInput`.  Its writes to the
spinner and the colour are read by nothing. -/
def updateUI (s : App) : App :=
  validateInput
    { s with btnText := if s.isSearching then "Stop Search".toList else "Search Subdomains".toList }

/-- The method `stopSearch`. -/
def stopSearch (s : App) : App :=
  let s := { s with isSearching := false }
  let s :=
    match s.currentEventSource with
    | some source =>
      { s with openEventSources := s.openEventSources.erase source, currentEventSource := none }
    | none => s
  let s := updateUI s
  { s with log := s.log ++ [.stopped] }

/-- The method `showLoadingState`. -/
def showLoadingState (s : App) (domain : Text) : App :=
  { s with resultsDiv := .loading domain false, log := s.log ++ [.started domain] }

/-- The method `showError`. -/
def showError (s : App) (message : Text) : App :=
  { s with resultsDiv := .error message, log := s.log ++ [.error message] }

/-- The text written to `.search-status` on completion. -/
def completedText : Text := "✅ Search completed".toList

/-- The assignment `statusText.textContent = text`, where `.search-status` exists. -/
def setSearchStatus (view : ResultsView) (text : Text) : ResultsView :=
  match view with
  | .results _ hidden count items => .results text hidden count items
  | other => other

/-- The assignment `progressIndicator.style.display = 'none'`, where `.progress-indicator`
exists. -/
def hideProgress : ResultsView → ResultsView
  | .results status _ count items => .results status true count items
  | .loading domain _ => .loading domain true
  | other => other

/-- The method `showCompletionState`: the status text and the progress indicator are updated
where they exist, and with an empty set the whole content is replaced. -/
def showCompletionState (s : App) : App :=
  let view := hideProgress (setSearchStatus s.resultsDiv completedText)
  if s.foundSubdomains.length = 0 then
    { s with resultsDiv := .noSubdomains, log := s.log ++ [.noResults] }
  else
    { s with resultsDiv := view, log := s.log ++ [.completed] }

/-- The test `document.querySelector('.results-container')`. -/
def hasResultsContainer : ResultsView → Bool
  | .results _ _ _ _ => true
  | _ => false

/-- The method `createResultsContainer`. -/
def createResultsContainer (s : App) : App :=
  { s with resultsDiv := .results "Searching...".toList false 0 [] }

/-- The comparison `result.source === 'Certificate Transparency'`. -/
def isCertificateTransparency : JsValue → Bool
  | .string text => text == certificateTransparency
  | _ => false

/-- The constant `sourceClass` of `createSubdomainItem`. -/
def sourceClass (source : JsValue) : Text :=
  if isCertificateTransparency source then "source-ct".toList else "source-dns".toList

/-- The constant `sourceText` of `createSubdomainItem`. -/
def sourceText (source : JsValue) : Text :=
  if isCertificateTransparency source then "CT Logs".toList else "DNS Enum".toList

/-- The method `createSubdomainItem`.  It throws when `escapeHtml` cannot convert the
subdomain to a string. -/
def createSubdomainItem (result : JsValue) : Except JsError SubdomainItem :=
  match getProp result sourceKey, getProp result subdomainKey with
  | .ok source, .ok subdomain =>
    if toStringThrows subdomain then .error .TypeError
    else
      .ok
        { subdomain := subdomain
          sourceClass := sourceClass source
          sourceText := sourceText source }
  | .error e, _ => .error e
  | _, .error e => .error e

/-- The call `container.appendChild(item)`. -/
def appendChild (s : App) (item : SubdomainItem) : App :=
  match s.resultsDiv with
  | .results status hidden count items =>
    { s with resultsDiv := .results status hidden count (items ++ [item]),
             log := s.log ++ [.result item] }
  | _ => s

/-- The method `updateCount`. -/
def updateCount (s : App) : App :=
  match s.resultsDiv with
  | .results status hidden _ items =>
    { s with resultsDiv := .results status hidden s.foundSubdomains.length items }
  | _ => s

/-- The method `addSubdomain`: the state it leaves and the exception it throws, if any. -/
def addSubdomain (s : App) (result : JsValue) : App × Option JsError :=
  match getProp result subdomainKey with
  | .error e => (s, some e)
  | .ok key =>
    if setHas s.foundSubdomains key then (s, none)
    else
      let s := { s with foundSubdomains := s.foundSubdomains ++ [key] }
      let s := if hasResultsContainer s.resultsDiv then s else createResultsContainer s
      match createSubdomainItem result with
      | .error e => (s, some e)
      | .ok item => (updateCount (appendChild s item), none)

/-- The payload that signals completion. -/
def completionPayload : Text := "\x7b\"message\": \"Search completed\"\x7d".toList

/-- The `try` block of `processStreamLine`: the state it leaves and the exception caught by
the `catch` clause, if any. -/
def tryBlock (parse : Text → Except JsError JsValue) (s : App) (data : Text) :
    App × Option JsError :=
  match parse data with
  | .error e => (s, some e)
  | .ok result =>
    match getProp result subdomainKey with
    | .error e => (s, some e)
    | .ok subdomain =>
      if truthy subdomain then
        match getProp result sourceKey with
        | .error e => (s, some e)
        | .ok source => if truthy source then addSubdomain s result else (s, none)
      else (s, none)

/-- The method `processStreamLine`. -/
def processStreamLine (parse : Text → Except JsError JsValue) (s : App) (line : Text) :
    App :=
  if startsWith line "data: ".toList then
    let data := substring line 6
    if data = completionPayload then showCompletionState s
    else
      match tryBlock parse s data with
      | (s, none) => s
      | (s, some _) => { s with console := s.console ++ [data] }
  else if startsWith line "event: complete".toList then showCompletionState s
  else s

/-- One turn of the `while` loop of `streamResults` for a read that delivers `value`. -/
def readChunk (parse : Text → Except JsError JsValue) (s : App) (buffer value : Text) :
    App × Text :=
  let fed := feed buffer value
  (fed.1.foldl (processStreamLine parse) s, fed.2)

/-- The loop over a sequence of reads, with no other handler running in between. -/
def readAll (parse : Text → Except JsError JsValue) (s : App) (buffer : Text) :
    List Text → App × Text
  | [] => (s, buffer)
  | value :: values =>
    let turn := readChunk parse s buffer value
    readAll parse turn.1 turn.2 values

/-! ## Lifecycle -/

/-- The call `streamResults(domain)` up to its first `await`: the request is issued. -/
def streamResults (s : State) : State :=
  { s with streams := s.streams ++ [{ id := s.nextStream, buffer := none }],
           nextStream := s.nextStream + 1 }

/-- The statements of `startSearch` before the call of `streamResults`. -/
def startSearchApp (s : App) (domain : Text) : App :=
  let s := { s with isSearching := true }
  let s := { s with foundSubdomains := [] }
  let s := updateUI s
  let s := showLoadingState s domain
  let s :=
    match s.currentEventSource with
    | some source => { s with openEventSources := s.openEventSources.erase source }
    | none => s
  { s with currentEventSource := some s.nextEventSource,
           openEventSources := s.openEventSources ++ [s.nextEventSource],
           nextEventSource := s.nextEventSource + 1 }

/-- The method `startSearch`. -/
def startSearch (s : State) (domain : Text) : State :=
  streamResults { s with app := startSearchApp s.app domain }

/-- The method `handleSubmit`. -/
def handleSubmit (s : State) : State :=
  if s.app.isSearching then { s with app := stopSearch s.app }
  else
    let domain := trim s.app.domainValue
    if domain.isEmpty then s else startSearch s domain

/-- The request `id`, if it has not ended. -/
def findStream (s : State) (id : Nat) : Option ResponseStream :=
  s.streams.find? (fun r => r.id == id)

/-- Removes the request `id`: its invocation of `streamResults` has left the `try` block. -/
def endStream (s : State) (id : Nat) : State :=
  { s with streams := s.streams.filter (fun r => r.id != id) }

/-- Stores the local `buffer` of the invocation of `streamResults` that reads request `id`. -/
def setBuffer (s : State) (id : Nat) (buffer : Text) : State :=
  { s with
    streams := s.streams.map (fun r => if r.id == id then { r with buffer := some buffer } else r) }

/-- The `catch` and `finally` clauses of `streamResults` for an exception with `message`. -/
def catchFinally (s : App) (message : Text) : App :=
  stopSearch (showError s ("Connection error: ".toList ++ message))

/-- The message of `new Error(...)` thrown for a response that is not `ok`. -/
def httpMessage (status : Nat) (statusText : Text) : Text :=
  "HTTP ".toList ++ (Nat.repr status).toList ++ ": ".toList ++ statusText

/-- What the host can deliver to the code.

* `input value`: an input event on `#domain`, after the user has changed its value to
  `value`.
* `submit`: a submit event on the form.
* `fetchRejected id message`: the `fetch` promise of request `id` rejects.
* `response id status statusText noBody`: it resolves; `noBody` is the message of the
  `TypeError` thrown by `response.body.getReader()` when the response has a null body.
* `read id value`: `reader.read()` resolves with `done` false and the chunk that decodes
  to `value`.
* `readDone id`: `reader.read()` resolves with `done` true.
* `readRejected id message`: `reader.read()` rejects. -/
inductive Event where
  | input (value : Text)
  | submit
  | fetchRejected (id : Nat) (message : Text)
  | response (id : Nat) (status : Nat) (statusText : Text) (noBody : Option Text)
  | read (id : Nat) (value : Text)
  | readDone (id : Nat)
  | readRejected (id : Nat) (message : Text)

/-- The request `id` leaves the `try` block with an exception. -/
def throwIn (s : State) (id : Nat) (message : Text) : State :=
  { endStream s id with app := catchFinally s.app message }

/-- The handler run for one event.  An event that the host cannot deliver changes nothing:
an event for a request that is not waiting for it, and a submit event while `#searchBtn`,
the submit button of the form, is disabled. -/
def step (parse : Text → Except JsError JsValue) (s : State) : Event → State
  | .input value => { s with app := validateInput { s.app with domainValue := value } }
  | .submit => if s.app.searchBtnDisabled then s else handleSubmit s
  | .fetchRejected id message =>
    match findStream s id with
    | some { id := _, buffer := none } => throwIn s id message
    | _ => s
  | .response id status statusText noBody =>
    match findStream s id with
    | some { id := _, buffer := none } =>
      if 200 ≤ status ∧ status ≤ 299 then
        match noBody with
        | some message => throwIn s id message
        | none => setBuffer s id []
      else throwIn s id (httpMessage status statusText)
    | _ => s
  | .read id value =>
    match findStream s id with
    | some { id := _, buffer := some buffer } =>
      let turn := readChunk parse s.app buffer value
      setBuffer { s with app := turn.1 } id turn.2
    | _ => s
  | .readDone id =>
    match findStream s id with
    | some { id := _, buffer := some _ } => { endStream s id with app := stopSearch s.app }
    | _ => s
  | .readRejected id message =>
    match findStream s id with
    | some { id := _, buffer := some _ } => throwIn s id message
    | _ => s

/-- The state after a sequence of events. -/
def run (parse : Text → Except JsError JsValue) (s : State) (events : List Event) : State :=
  events.foldl (step parse) s

/-- A state the page can be in: reached from the constructed object by some events. -/
def Reachable (parse : Text → Except JsError JsValue) (s : State) : Prop :=
  ∃ label value disabled events, s = run parse (constructed label value disabled) events

/-! ## Vocabulary of the claims -/

/-- The line is a completion signal for `processStreamLine`: a `data: ` line whose payload is
the sentinel, or a line of another kind that starts with `event: complete`. -/
def isCompletionSignal (line : Text) : Bool :=
  if startsWith line "data: ".toList then substring line 6 == completionPayload
  else startsWith line "event: complete".toList

/-- The items shown in `.results-container`. -/
def shownItems : ResultsView → List SubdomainItem
  | .results _ _ _ items => items
  | _ => []

/-- The number shown in `.status-count`, when that element exists. -/
def shownCount : ResultsView → Option Nat
  | .results _ _ count _ => some count
  | _ => none

/-- The notification reports the end of the search: completion or its no-results variant. -/
def isCompletion : Notification → Bool
  | .completed => true
  | .noResults => true
  | _ => false

/-- The notification is a call of `showError`. -/
def isError : Notification → Bool
  | .error _ => true
  | _ => false

/-- The notification is a call of `stopSearch`. -/
def isStopped : Notification → Bool
  | .stopped => true
  | _ => false

/-- The state with the record of `console.warn` replaced. -/
def withConsole (s : App) (console : List Text) : App :=
  { s with console := console }

/-- The payload of a `data: ` line is a malformed record: it fails to parse, or it parses to
something that is not an object, or it parses to an object whose `subdomain` or `source` is
absent or falsy (the empty string, `null`, `false`, zero). -/
def Malformed (parse : Text → Except JsError JsValue) (data : Text) : Prop :=
  (∃ e, parse data = .error e) ∨
  (∃ value, parse data = .ok value ∧ ∀ members, value ≠ .object members) ∨
  (∃ members, parse data = .ok (.object members) ∧
    (truthy (ownProperty members subdomainKey) = false ∨
      truthy (ownProperty members sourceKey) = false))

/-- The item built for a result whose subdomain is the string `key`. -/
def itemOf (key : JsString) (source : JsValue) : SubdomainItem :=
  { subdomain := .string key, sourceClass := sourceClass source, sourceText := sourceText source }

/-- The content of `#results` after `addSubdomain` has accepted a result: the container is
created when it is missing, the item is appended and the count is set to `count`. -/
def withItem (view : ResultsView) (count : Nat) (item : SubdomainItem) : ResultsView :=
  match view with
  | .results status hidden _ items => .results status hidden count (items ++ [item])
  | _ => .results "Searching...".toList false count [item]

/-- Offers a sequence of results to `addSubdomain`, one after the other. -/
def addAll (s : App) (results : List JsValue) : App :=
  results.foldl (fun s result => (addSubdomain s result).1) s

/-- The subdomain of a result, when it is a string. -/
def subdomainText (result : JsValue) : JsString :=
  match getProp result subdomainKey with
  | .ok (.string text) => text
  | _ => []

/-- A record of the stream: the payload of its `data: ` line, and the subdomain and source
that the payload carries. -/
structure Record where
  payload : Text
  subdomain : JsString
  source : JsString

/-- The record is well formed for `parse`: its payload fits on one line, is not the sentinel,
and parses to an object whose `subdomain` and `source` are the non-empty strings named by the
record. -/
def Record.WellFormed (parse : Text → Except JsError JsValue) (r : Record) : Prop :=
  '\n' ∉ r.payload ∧ r.payload ≠ completionPayload ∧ r.subdomain ≠ [] ∧ r.source ≠ [] ∧
  ∃ result, parse r.payload = .ok result ∧
    getProp result subdomainKey = .ok (.string r.subdomain) ∧
    getProp result sourceKey = .ok (.string r.source)

/-- The line that carries a record. -/
def Record.line (r : Record) : Text :=
  "data: ".toList ++ r.payload

/-- The records that are the first of their subdomain, in their order of arrival. -/
def firstOccurrences : List Record → List Record
  | [] => []
  | r :: rs => r :: (firstOccurrences rs).filter (fun other => other.subdomain ≠ r.subdomain)

/-- The item expected for a record, stated from the record alone and not through
`createSubdomainItem`: it names the subdomain and the source of the record.  The page names a
source by one of two labels: the one of the certificate transparency logs for the source
`Certificate Transparency`, and the one of the DNS enumeration for every other source. -/
def Record.item (r : Record) : SubdomainItem :=
  { subdomain := .string r.subdomain
    sourceClass :=
      if r.source = certificateTransparency then "source-ct".toList else "source-dns".toList
    sourceText :=
      if r.source = certificateTransparency then "CT Logs".toList else "DNS Enum".toList }

/-- The text of a stream that carries the records, one per line, and then the line
`event: complete`. -/
def streamText (records : List Record) : Text :=
  (records.map (fun r => r.line ++ "\n".toList)).flatten ++ "event: complete\n".toList

/-- The events of one session whose request is `id`, with no other event in between: the
submit that starts it, a response with status 200, the reads of the chunks, and the end of
the body. -/
def sessionEvents (id : Nat) (chunks : List Text) : List Event :=
  [.submit, .response id 200 "OK".toList none] ++ chunks.map (.read id) ++ [.readDone id]

/-- The identifiers of the requests in flight are below the next identifier. -/
def FreshIds (s : State) : Prop :=
  ∀ r ∈ s.streams, r.id < s.nextStream

/-- The object and page after the lines of the records have been processed, from a state `a`
with an empty set and no results container: the first occurrences are in the set, shown as
items and notified, in their order of arrival. -/
def afterRecords (a : App) (records : List Record) : App :=
  { a with
    foundSubdomains := (firstOccurrences records).map (fun r => JsValue.string r.subdomain),
    resultsDiv :=
      if (firstOccurrences records).isEmpty then a.resultsDiv
      else
        .results "Searching...".toList false (firstOccurrences records).length
          ((firstOccurrences records).map Record.item),
    log := a.log ++ (firstOccurrences records).map (fun r => Notification.result r.item) }

/-- The history after a call either is the old one or has one more result. -/
def LogGrowsByResult (before after : App) : Prop :=
  after.log = before.log ∨ ∃ item, after.log = before.log ++ [.result item]

/-- The only open `EventSource` is the one held in `currentEventSource`, and one is held
exactly while `isSearching` is set. -/
def HoldsItsEventSource (a : App) : Prop :=
  a.openEventSources = a.currentEventSource.toList ∧
  a.currentEventSource.isSome = a.isSearching

/-- While `isSearching` is set the button is disabled and exactly one invocation of
`streamResults` is inside its `try` block; while it is not set, none is. -/
def OneSession (s : State) : Prop :=
  (s.app.isSearching = true → s.app.searchBtnDisabled = true ∧ ∃ r, s.streams = [r]) ∧
  (s.app.isSearching = false → s.streams = [])

/-- The requests numbered below `n` have all ended. -/
def EndedBelow (n : Nat) (s : State) : Prop :=
  n ≤ s.nextStream ∧ ∀ r ∈ s.streams, n ≤ r.id

/-! ## Sample data -/

/-- The two records of the example of the specification. -/
def specRecords : List Record :=
  [ { payload :=
        "\x7b\"subdomain\":\"a.example.com\",\"source\":\"Certificate Transparency\"\x7d".toList,
      subdomain := utf16 "a.example.com".toList,
      source := certificateTransparency },
    { payload := "\x7b\"subdomain\":\"a.example.com\",\"source\":\"DNS Enum\"\x7d".toList,
      subdomain := utf16 "a.example.com".toList,
      source := utf16 "DNS Enum".toList } ]

/-- The records of the example of the specification in the other order: the DNS enumeration
reports the subdomain first. -/
def dnsFirstRecords : List Record :=
  [ { payload := "\x7b\"subdomain\":\"a.example.com\",\"source\":\"DNS Enum\"\x7d".toList,
      subdomain := utf16 "a.example.com".toList,
      source := utf16 "DNS Enum".toList },
    { payload :=
        "\x7b\"subdomain\":\"a.example.com\",\"source\":\"Certificate Transparency\"\x7d".toList,
      subdomain := utf16 "a.example.com".toList,
      source := certificateTransparency } ]

/-- The three chunks of the example of the specification. -/
def specChunks : List Text :=
  [ "data: \x7b\"subdomain\":\"a.example.com\",\"source\":\"Certificate Transparency\"\x7d\n".toList,
    "data: \x7b\"subdomain\":\"a.example.com\",\"source\":\"DNS Enum\"\x7d\n".toList,
    "event: complete\n".toList ]

/-- The stream of `dnsFirstRecords`, cut in the middle of its lines. -/
def dnsFirstChunks : List Text :=
  [ "data: \x7b\"subdomain\":\"a.example.com\",\"sou".toList,
    "rce\":\"DNS Enum\"\x7d\ndata: \x7b\"subdomain\":\"a.example.com\",".toList,
    "\"source\":\"Certificate Transparency\"\x7d\nevent: complete\n".toList ]

/-- Three results as `JSON.parse` returns them, two of them for the same subdomain. -/
def sampleResults : List JsValue :=
  [ .object [(subdomainKey, .string (utf16 "a.example.com".toList)),
             (sourceKey, .string certificateTransparency)],
    .object [(subdomainKey, .string (utf16 "b.example.com".toList)),
             (sourceKey, .string (utf16 "DNS Enum".toList))],
    .object [(subdomainKey, .string (utf16 "a.example.com".toList)),
             (sourceKey, .string (utf16 "DNS Enum".toList))] ]

/-- A fresh page, its button enabled, on which the user has typed `example.com`. -/
def ready : State :=
  run jsonParse (constructed [] [] false) [.input "example.com".toList]

/-- The page of `ready` once the search has been submitted. -/
def submitted : State :=
  run jsonParse ready [.submit]

/-- The page of `submitted` once the response has arrived with status 200. -/
def responding : State :=
  run jsonParse submitted [.response 0 200 "OK".toList none]

/-- A stream that gives both completion signals: the sentinel payload, then the event. -/
def bothSignals : List Text :=
  ["data: \x7b\"message\": \"Search completed\"\x7d\nevent: complete\n".toList]

/-- A stream that carries one record and no completion signal. -/
def noSignal : List Text :=
  ["data: \x7b\"subdomain\":\"a.example.com\",\"source\":\"DNS Enum\"\x7d\n".toList]

/-- The page of `ready` after a search whose body carried one record and then ended. -/
def ended : State :=
  run jsonParse ready (sessionEvents 0 noSignal)

/-! ## Framer lemmas -/

theorem split_ne_nil (t : Text) : split t ≠ [] := by
  cases t with
  | nil => simp [split]
  | cons c cs =>
    unfold split
    split
    · simp
    · cases split cs <;> simp [pushFront]

theorem pop_cons_cons (a b : Text) (l : List Text) : pop (a :: b :: l) = pop (b :: l) := by
  simp [pop, List.getLastD]

theorem popRest_cons_cons (a b : Text) (l : List Text) :
    popRest (a :: b :: l) = a :: popRest (b :: l) := by
  simp [popRest]

theorem pop_singleton (a : Text) : pop [a] = a := rfl

theorem popRest_singleton (a : Text) : popRest [a] = [] := rfl

theorem pop_append (xs ys : List Text) (h : ys ≠ []) : pop (xs ++ ys) = pop ys := by
  induction xs with
  | nil => rfl
  | cons x xs ih =>
    cases hxy : xs ++ ys with
    | nil => simp [h] at hxy
    | cons z zs => rw [List.cons_append, hxy, pop_cons_cons, ← hxy, ih]

theorem popRest_append (xs ys : List Text) (h : ys ≠ []) :
    popRest (xs ++ ys) = xs ++ popRest ys := by
  induction xs with
  | nil => rfl
  | cons x xs ih =>
    cases hxy : xs ++ ys with
    | nil => simp [h] at hxy
    | cons z zs => rw [List.cons_append, hxy, popRest_cons_cons, ← hxy, ih, List.cons_append]

theorem split_cons_newline (cs : Text) : split ('\n' :: cs) = [] :: split cs := by
  simp [split]

theorem split_cons_other (c : Char) (cs : Text) (hc : c ≠ '\n') :
    split (c :: cs) = pushFront c (split cs) := by
  simp [split, hc]

/-- Splitting a concatenation: the complete pieces of the first text, then the split of its
last piece continued by the second text. -/
theorem split_append (x y : Text) :
    split (x ++ y) = popRest (split x) ++ split (pop (split x) ++ y) := by
  induction x with
  | nil => simp [split, pop, popRest]
  | cons c cs ih =>
    have hne := split_ne_nil cs
    rw [List.cons_append]
    by_cases hc : c = '\n'
    · subst hc
      rw [split_cons_newline, split_cons_newline, ih]
      cases hs : split cs with
      | nil => exact absurd hs hne
      | cons p ps => rw [pop_cons_cons, popRest_cons_cons, List.cons_append]
    · rw [split_cons_other c _ hc, split_cons_other c _ hc, ih]
      cases hs : split cs with
      | nil => exact absurd hs hne
      | cons p ps =>
        cases ps with
        | nil =>
          simp only [pushFront, pop_singleton, popRest_singleton, List.nil_append]
          rw [List.cons_append, split_cons_other c _ hc]
          rfl
        | cons q qs =>
          simp only [pushFront, pop_cons_cons, popRest_cons_cons, List.cons_append]

theorem split_of_no_newline (t : Text) (h : '\n' ∉ t) : split t = [t] := by
  induction t with
  | nil => rfl
  | cons c cs ih =>
    have hc : c ≠ '\n' := fun e => h (by simp [e])
    have hcs : '\n' ∉ cs := fun e => h (by simp [e])
    simp [split, hc, ih hcs, pushFront]

theorem no_newline_of_split (t : Text) (h : split t = [t]) : '\n' ∉ t := by
  induction t with
  | nil => simp
  | cons c cs ih =>
    have hne := split_ne_nil cs
    by_cases hc : c = '\n'
    · subst hc
      rw [split_cons_newline] at h
      cases hs : split cs with
      | nil => exact absurd hs hne
      | cons p ps => rw [hs] at h; simp at h
    · rw [split_cons_other c _ hc] at h
      cases hs : split cs with
      | nil => exact absurd hs hne
      | cons p ps =>
        rw [hs] at h
        simp only [pushFront, List.cons.injEq] at h
        obtain ⟨⟨_, hp⟩, hps⟩ := h
        subst hp hps
        intro hmem
        rcases List.mem_cons.mp hmem with h1 | h1
        · exact hc h1.symm
        · exact ih hs h1

theorem split_pop (t : Text) : split (pop (split t)) = [pop (split t)] := by
  induction t with
  | nil => rfl
  | cons c cs ih =>
    have hne := split_ne_nil cs
    by_cases hc : c = '\n'
    · subst hc
      rw [split_cons_newline]
      cases hs : split cs with
      | nil => exact absurd hs hne
      | cons p ps => rw [pop_cons_cons, ← hs]; exact ih
    · rw [split_cons_other c _ hc]
      cases hs : split cs with
      | nil => exact absurd hs hne
      | cons p ps =>
        rw [hs] at ih
        cases ps with
        | nil =>
          simp only [pushFront, pop_singleton] at ih ⊢
          rw [split_cons_other c _ hc, ih]
          rfl
        | cons q qs =>
          simp only [pushFront, pop_cons_cons] at ih ⊢
          exact ih

/-- What the framer has done after a sequence of chunks depends only on the buffer it started
with followed by the concatenation of the chunks. -/
theorem frame_eq (chunks : List Text) (buffer : Text) (h : split buffer = [buffer]) :
    frame buffer chunks =
      (popRest (split (buffer ++ chunks.flatten)), pop (split (buffer ++ chunks.flatten))) := by
  induction chunks generalizing buffer with
  | nil => simp [frame, h, pop, popRest]
  | cons c cs ih =>
    have hb := split_pop (buffer ++ c)
    simp only [frame, feed, ih _ hb, List.flatten_cons]
    have hne := split_ne_nil (pop (split (buffer ++ c)) ++ cs.flatten)
    rw [← List.append_assoc, split_append (buffer ++ c) cs.flatten,
      popRest_append _ _ hne, pop_append _ _ hne]

theorem foldl_frame (parse : Text → Except JsError JsValue) (chunks : List Text) (s : App)
    (buffer : Text) :
    readAll parse s buffer chunks =
      ((frame buffer chunks).1.foldl (processStreamLine parse) s, (frame buffer chunks).2) := by
  induction chunks generalizing s buffer with
  | nil => rfl
  | cons c cs ih => simp [readAll, readChunk, frame, ih, List.foldl_append]

theorem split_nil : split [] = [[]] := rfl

/-- A chunk without a newline adds nothing to the lines handed on. -/
theorem frame_append_tail (chunks : List Text) (buffer tail : Text)
    (hb : split buffer = [buffer]) (h : '\n' ∉ tail) :
    (frame buffer (chunks ++ [tail])).1 = (frame buffer chunks).1 := by
  rw [frame_eq _ _ hb, frame_eq _ _ hb]
  simp only [List.flatten_append, List.flatten_cons, List.flatten_nil, List.append_nil]
  rw [← List.append_assoc, split_append (buffer ++ chunks.flatten) tail]
  have hp := split_pop (buffer ++ chunks.flatten)
  have hnl : '\n' ∉ pop (split (buffer ++ chunks.flatten)) ++ tail := by
    intro hmem
    rcases List.mem_append.mp hmem with h1 | h1
    · exact no_newline_of_split _ hp h1
    · exact h h1
  rw [split_of_no_newline _ hnl, popRest_append _ _ (by simp), popRest_singleton,
    List.append_nil]

/-! ## Decoder lemmas -/

theorem showCompletionState_console (s : App) (console : List Text) :
    showCompletionState (withConsole s console) =
      withConsole (showCompletionState s) console := by
  unfold showCompletionState withConsole
  split <;> rfl

theorem addSubdomain_console (s : App) (console : List Text) (result : JsValue) :
    addSubdomain (withConsole s console) result =
      (withConsole (addSubdomain s result).1 console, (addSubdomain s result).2) := by
  unfold addSubdomain
  cases getProp result subdomainKey with
  | error e => rfl
  | ok key =>
    dsimp only [withConsole]
    by_cases hhas : setHas s.foundSubdomains key = true
    · simp [hhas]
    · simp only [hhas]
      cases createSubdomainItem result with
      | error e =>
        cases hv : s.resultsDiv <;>
          simp [hv, hasResultsContainer, createResultsContainer]
      | ok item =>
        cases hv : s.resultsDiv <;>
          simp [hv, hasResultsContainer, createResultsContainer, appendChild, updateCount]

theorem tryBlock_console (parse : Text → Except JsError JsValue) (s : App)
    (console : List Text) (data : Text) :
    tryBlock parse (withConsole s console) data =
      (withConsole (tryBlock parse s data).1 console, (tryBlock parse s data).2) := by
  unfold tryBlock
  cases parse data with
  | error e => rfl
  | ok result =>
    dsimp only
    cases getProp result subdomainKey with
    | error e => rfl
    | ok subdomain =>
      dsimp only
      by_cases ht : truthy subdomain = true
      · simp only [ht, if_true]
        cases getProp result sourceKey with
        | error e => rfl
        | ok source =>
          dsimp only
          by_cases hs : truthy source = true
          · simp only [hs, if_true]
            exact addSubdomain_console s console result
          · simp only [hs]
            rfl
      · simp only [ht]
        rfl

/-- Nothing in `processStreamLine` reads the record of `console.warn`. -/
theorem processStreamLine_console (parse : Text → Except JsError JsValue) (s : App)
    (console : List Text) (line : Text) :
    withConsole (processStreamLine parse (withConsole s console) line) [] =
      withConsole (processStreamLine parse s line) [] := by
  unfold processStreamLine
  by_cases hd : startsWith line "data: ".toList = true
  · rw [if_pos hd, if_pos hd]
    by_cases hp : substring line 6 = completionPayload
    · simp only [hp, if_true]
      rw [showCompletionState_console]
      rfl
    · simp only [hp, if_false]
      rw [tryBlock_console]
      cases htry : tryBlock parse s (substring line 6) with
      | mk t thrown => cases thrown <;> rfl
  · rw [if_neg hd, if_neg hd]
    by_cases he : startsWith line "event: complete".toList = true
    · rw [if_pos he, if_pos he, showCompletionState_console]
      rfl
    · rw [if_neg he, if_neg he]
      rfl

theorem foldl_console (parse : Text → Except JsError JsValue) (lines : List Text) (s t : App)
    (h : withConsole s [] = withConsole t []) :
    withConsole (lines.foldl (processStreamLine parse) s) [] =
      withConsole (lines.foldl (processStreamLine parse) t) [] := by
  induction lines generalizing s t with
  | nil => exact h
  | cons l ls ih =>
    simp only [List.foldl_cons]
    apply ih
    have h1 := processStreamLine_console parse s [] l
    have h2 := processStreamLine_console parse t [] l
    rw [← h1, ← h2, h]

theorem processStreamLine_signal (parse : Text → Except JsError JsValue) (s : App)
    (line : Text) (hsignal : isCompletionSignal line = true) :
    processStreamLine parse s line = showCompletionState s := by
  unfold isCompletionSignal at hsignal
  unfold processStreamLine
  by_cases hd : startsWith line "data: ".toList = true
  · rw [if_pos hd] at hsignal ⊢
    have hpayload : substring line 6 = completionPayload := eq_of_beq hsignal
    show (if substring line 6 = completionPayload then _ else _) = _
    rw [if_pos hpayload]
  · rw [if_neg hd] at hsignal ⊢
    rw [if_pos hsignal]

theorem showCompletionState_empty (s : App) (h : s.foundSubdomains.length = 0) :
    showCompletionState s =
      { s with resultsDiv := .noSubdomains, log := s.log ++ [.noResults] } := by
  unfold showCompletionState
  rw [if_pos h]

theorem showCompletionState_nonempty (s : App) (h : s.foundSubdomains.length ≠ 0) :
    showCompletionState s =
      { s with
        resultsDiv := hideProgress (setSearchStatus s.resultsDiv completedText),
        log := s.log ++ [.completed] } := by
  unfold showCompletionState
  rw [if_neg h]

theorem stopSearch_fields (s : App) :
    (stopSearch s).log = s.log ++ [.stopped] ∧ (stopSearch s).resultsDiv = s.resultsDiv ∧
    (stopSearch s).foundSubdomains = s.foundSubdomains ∧ (stopSearch s).isSearching = false ∧
    (stopSearch s).console = s.console := by
  unfold stopSearch updateUI
  cases s.currentEventSource <;> exact ⟨rfl, rfl, rfl, rfl, rfl⟩

/-! ## The aggregator on string keys -/

theorem sameValueZero_string (a b : JsString) :
    sameValueZero (.string a) (.string b) = (a == b) := rfl

theorem setHas_strings (known : List JsString) (key : JsString) :
    setHas (known.map JsValue.string) (.string key) = decide (key ∈ known) := by
  induction known with
  | nil => rfl
  | cons k ks ih =>
    show (sameValueZero (.string k) (.string key) ||
      setHas (ks.map JsValue.string) (.string key)) = decide (key ∈ k :: ks)
    rw [ih, sameValueZero_string]
    by_cases hk : k = key
    · simp [hk]
    · have hk' : ¬ key = k := fun h => hk h.symm
      simp [hk, hk']

theorem source_of_string_subdomain (result : JsValue) (key : JsString)
    (h : getProp result subdomainKey = .ok (.string key)) :
    ∃ source, getProp result sourceKey = .ok source := by
  cases result with
  | object members => exact ⟨_, rfl⟩
  | undefined => cases h
  | null => cases h
  | bool b => exact ⟨_, rfl⟩
  | number bits => exact ⟨_, rfl⟩
  | string t => exact ⟨_, rfl⟩
  | array elements => exact ⟨_, rfl⟩

theorem createSubdomainItem_string (result : JsValue) (key : JsString) (source : JsValue)
    (hsub : getProp result subdomainKey = .ok (.string key))
    (hsrc : getProp result sourceKey = .ok source) :
    createSubdomainItem result = .ok (itemOf key source) := by
  unfold createSubdomainItem
  rw [hsub, hsrc]
  rfl

/-- A result whose subdomain is a string already in the set changes nothing. -/
theorem addSubdomain_seen (s : App) (known : List JsString) (result : JsValue) (key : JsString)
    (hfound : s.foundSubdomains = known.map JsValue.string)
    (hsub : getProp result subdomainKey = .ok (.string key)) (hmem : key ∈ known) :
    addSubdomain s result = (s, none) := by
  unfold addSubdomain
  rw [hsub]
  dsimp only
  rw [hfound, setHas_strings, if_pos (by simpa using hmem)]

/-- A result whose subdomain is a string not yet in the set is accepted. -/
theorem addSubdomain_new (s : App) (known : List JsString) (result : JsValue) (key : JsString)
    (source : JsValue)
    (hfound : s.foundSubdomains = known.map JsValue.string)
    (hsub : getProp result subdomainKey = .ok (.string key))
    (hsrc : getProp result sourceKey = .ok source) (hmem : key ∉ known) :
    addSubdomain s result =
      ({ s with
          foundSubdomains := s.foundSubdomains ++ [.string key],
          resultsDiv := withItem s.resultsDiv (s.foundSubdomains.length + 1) (itemOf key source),
          log := s.log ++ [.result (itemOf key source)] }, none) := by
  unfold addSubdomain
  rw [hsub]
  dsimp only
  rw [createSubdomainItem_string result key source hsub hsrc]
  have hhas : ¬ setHas s.foundSubdomains (.string key) = true := by
    rw [hfound, setHas_strings]
    simpa using hmem
  rw [if_neg hhas]
  cases hv : s.resultsDiv <;>
    simp [hv, hasResultsContainer, createResultsContainer, appendChild, updateCount, withItem]

theorem addAll_cons (s : App) (result : JsValue) (results : List JsValue) :
    addAll s (result :: results) = addAll (addSubdomain s result).1 results := rfl

/-- Offering results with string subdomains keeps the set a duplicate-free list of strings
that holds the old keys and the offered ones, and shows its size once anything was accepted. -/
theorem addAll_strings (results : List JsValue) (s : App) (known : List JsString)
    (hfound : s.foundSubdomains = known.map JsValue.string) (hnodup : known.Nodup)
    (hstr : ∀ r ∈ results, getProp r subdomainKey = .ok (.string (subdomainText r))) :
    ∃ total : List JsString,
      (addAll s results).foundSubdomains = total.map JsValue.string ∧ total.Nodup ∧
      (∀ k, k ∈ total ↔ k ∈ known ∨ k ∈ results.map subdomainText) ∧
      ((shownCount s.resultsDiv = some known.length ∨ (known = [] ∧ results ≠ [])) →
        shownCount (addAll s results).resultsDiv = some total.length) := by
  induction results generalizing s known with
  | nil =>
    refine ⟨known, hfound, hnodup, by simp, ?_⟩
    rintro (h | ⟨_, h⟩)
    · exact h
    · exact absurd rfl h
  | cons r rs ih =>
    have hr := hstr r (List.mem_cons_self _ _)
    have hrs : ∀ x ∈ rs, getProp x subdomainKey = .ok (.string (subdomainText x)) :=
      fun x hx => hstr x (List.mem_cons_of_mem _ hx)
    rw [addAll_cons]
    by_cases hmem : subdomainText r ∈ known
    · rw [addSubdomain_seen s known r _ hfound hr hmem]
      obtain ⟨total, h1, h2, h3, h4⟩ := ih s known hfound hnodup hrs
      refine ⟨total, h1, h2, ?_, ?_⟩
      · intro k
        rw [h3 k]
        simp only [List.map_cons, List.mem_cons]
        constructor
        · rintro (h | h)
          · exact Or.inl h
          · exact Or.inr (Or.inr h)
        · rintro (h | h | h)
          · exact Or.inl h
          · exact Or.inl (h ▸ hmem)
          · exact Or.inr h
      · rintro (h | ⟨h, _⟩)
        · exact h4 (Or.inl h)
        · rw [h] at hmem
          cases hmem
    · obtain ⟨source, hsrc⟩ := source_of_string_subdomain r _ hr
      rw [addSubdomain_new s known r _ source hfound hr hsrc hmem]
      have hfound' : (s.foundSubdomains ++ [JsValue.string (subdomainText r)]) =
          (known ++ [subdomainText r]).map JsValue.string := by
        rw [hfound, List.map_append]
        rfl
      have hnodup' : (known ++ [subdomainText r]).Nodup := by
        rw [List.nodup_append]
        refine ⟨hnodup, List.nodup_singleton _, ?_⟩
        intro a ha hb
        rw [List.mem_singleton] at hb
        exact hmem (hb ▸ ha)
      obtain ⟨total, h1, h2, h3, h4⟩ :=
        ih { s with
              foundSubdomains := s.foundSubdomains ++ [.string (subdomainText r)],
              resultsDiv := withItem s.resultsDiv (s.foundSubdomains.length + 1)
                (itemOf (subdomainText r) source),
              log := s.log ++ [.result (itemOf (subdomainText r) source)] }
          (known ++ [subdomainText r]) hfound' hnodup' hrs
      refine ⟨total, h1, h2, ?_, ?_⟩
      · intro k
        rw [h3 k]
        simp only [List.map_cons, List.mem_cons, List.mem_append, List.mem_singleton]
        tauto
      · intro _
        apply h4
        left
        dsimp only
        rw [hfound]
        cases s.resultsDiv <;> simp [withItem, shownCount]

theorem length_eq_dedup_length (total keys : List JsString) (hnodup : total.Nodup)
    (hmem : ∀ k, k ∈ total ↔ k ∈ keys) : total.length = keys.dedup.length := by
  rw [← List.toFinset_card_of_nodup hnodup, ← List.card_toFinset]
  congr 1
  ext k
  simp [hmem k]

/-! ## First occurrences -/

theorem mem_firstOccurrences_keys (records : List Record) (key : JsString) :
    key ∈ (firstOccurrences records).map Record.subdomain ↔
      key ∈ records.map Record.subdomain := by
  induction records with
  | nil => simp [firstOccurrences]
  | cons r rs ih =>
    simp only [firstOccurrences, List.map_cons, List.mem_cons]
    constructor
    · rintro (h | h)
      · exact Or.inl h
      · right
        apply ih.mp
        rw [List.mem_map] at h ⊢
        obtain ⟨x, hx, hk⟩ := h
        exact ⟨x, (List.mem_filter.mp hx).1, hk⟩
    · rintro (h | h)
      · exact Or.inl h
      · by_cases hk : key = r.subdomain
        · exact Or.inl hk
        · right
          have := ih.mpr h
          rw [List.mem_map] at this ⊢
          obtain ⟨x, hx, hxk⟩ := this
          refine ⟨x, List.mem_filter.mpr ⟨hx, ?_⟩, hxk⟩
          simp only [decide_eq_true_eq]
          rw [hxk]
          exact hk

theorem firstOccurrences_snoc (records : List Record) (r : Record) :
    firstOccurrences (records ++ [r]) =
      if r.subdomain ∈ records.map Record.subdomain then firstOccurrences records
      else firstOccurrences records ++ [r] := by
  induction records with
  | nil => simp [firstOccurrences]
  | cons x xs ih =>
    rw [List.cons_append, firstOccurrences, ih]
    by_cases hmem : r.subdomain ∈ xs.map Record.subdomain
    · simp [hmem, firstOccurrences]
    · rw [if_neg hmem]
      by_cases hx : r.subdomain = x.subdomain
      · simp [hx, List.filter_append, firstOccurrences]
      · have hmem' : ¬ (r.subdomain = x.subdomain ∨ r.subdomain ∈ xs.map Record.subdomain) :=
          fun h => h.elim hx hmem
        simp only [List.map_cons, List.mem_cons, if_neg hmem']
        simp [hx, List.filter_append, firstOccurrences]

theorem nodup_firstOccurrences_keys (records : List Record) :
    ((firstOccurrences records).map Record.subdomain).Nodup := by
  induction records with
  | nil => simp [firstOccurrences]
  | cons r rs ih =>
    simp only [firstOccurrences, List.map_cons, List.nodup_cons]
    constructor
    · intro h
      rw [List.mem_map] at h
      obtain ⟨x, hx, hk⟩ := h
      have := (List.mem_filter.mp hx).2
      simp only [decide_eq_true_eq] at this
      exact this hk
    · exact ih.sublist ((List.filter_sublist _).map _)

theorem length_firstOccurrences (records : List Record) :
    (firstOccurrences records).length = (records.map Record.subdomain).dedup.length := by
  rw [← List.length_map (firstOccurrences records) Record.subdomain]
  exact length_eq_dedup_length _ _ (nodup_firstOccurrences_keys records)
    (mem_firstOccurrences_keys records)

/-! ## Record lines -/

theorem startsWith_record (r : Record) : startsWith r.line "data: ".toList = true := by
  simp [startsWith, Record.line]

theorem substring_record (r : Record) : substring r.line 6 = r.payload := rfl

/-- The item built by `createSubdomainItem` names the source of the record. -/
theorem itemOf_record (r : Record) : itemOf r.subdomain (.string r.source) = r.item := by
  unfold itemOf Record.item sourceClass sourceText isCertificateTransparency
  by_cases h : r.source = certificateTransparency
  · rw [if_pos h, if_pos h, if_pos (by rw [h]; rfl), if_pos (by rw [h]; rfl)]
  · have hb : ¬ (r.source == certificateTransparency) = true := by
      rw [beq_iff_eq]
      exact h
    rw [if_neg h, if_neg h, if_neg hb, if_neg hb]

/-- The line of a well-formed record is handed to `addSubdomain`, which accepts it exactly
when its subdomain is new. -/
theorem processStreamLine_record (parse : Text → Except JsError JsValue) (a : App)
    (known : List JsString) (r : Record) (hwf : r.WellFormed parse)
    (hfound : a.foundSubdomains = known.map JsValue.string) :
    processStreamLine parse a r.line =
      if r.subdomain ∈ known then a
      else
        { a with
          foundSubdomains := a.foundSubdomains ++ [.string r.subdomain],
          resultsDiv := withItem a.resultsDiv (a.foundSubdomains.length + 1) r.item,
          log := a.log ++ [.result r.item] } := by
  obtain ⟨_, hsentinel, hsub, hsrc, result, hparse, hgs, hgr⟩ := hwf
  unfold processStreamLine
  rw [if_pos (startsWith_record r)]
  dsimp only
  rw [substring_record, if_neg hsentinel]
  have htry : tryBlock parse a r.payload = addSubdomain a result := by
    unfold tryBlock
    rw [hparse]
    dsimp only
    rw [hgs]
    dsimp only
    have ht1 : truthy (.string r.subdomain) = true := by
      cases hs : r.subdomain with
      | nil => exact absurd hs hsub
      | cons c cs => rfl
    have ht2 : truthy (.string r.source) = true := by
      cases hs : r.source with
      | nil => exact absurd hs hsrc
      | cons c cs => rfl
    rw [if_pos ht1, hgr]
    dsimp only
    rw [if_pos ht2]
  rw [htry]
  by_cases hmem : r.subdomain ∈ known
  · rw [addSubdomain_seen a known result _ hfound hgs hmem, if_pos hmem]
  · rw [addSubdomain_new a known result _ _ hfound hgs hgr hmem, if_neg hmem, itemOf_record]

theorem foldl_records (parse : Text → Except JsError JsValue) (a : App)
    (records : List Record) (hempty : a.foundSubdomains = [])
    (hview : hasResultsContainer a.resultsDiv = false)
    (hwf : ∀ r ∈ records, r.WellFormed parse) :
    (records.map Record.line).foldl (processStreamLine parse) a = afterRecords a records := by
  induction records using List.reverseRecOn with
  | nil =>
    simp only [List.map_nil, List.foldl_nil, afterRecords, firstOccurrences, List.map_nil,
      List.isEmpty_nil, if_true, List.append_nil]
    cases a
    simp only at hempty
    rw [hempty]
  | append_singleton rs r ih =>
    have hrs : ∀ x ∈ rs, x.WellFormed parse := fun x hx => hwf x (List.mem_append_left _ hx)
    have hr : r.WellFormed parse := hwf r (by simp)
    rw [List.map_append, List.foldl_append, ih hrs]
    simp only [List.map_cons, List.map_nil, List.foldl_cons, List.foldl_nil]
    have hfound : (afterRecords a rs).foundSubdomains =
        ((firstOccurrences rs).map Record.subdomain).map JsValue.string := by
      simp [afterRecords, List.map_map, Function.comp_def]
    rw [processStreamLine_record parse _ _ r hr hfound]
    have hiff := mem_firstOccurrences_keys rs r.subdomain
    by_cases hmem : r.subdomain ∈ rs.map Record.subdomain
    · rw [if_pos (hiff.mpr hmem)]
      simp only [afterRecords, firstOccurrences_snoc, if_pos hmem]
    · rw [if_neg (fun h => hmem (hiff.mp h))]
      simp only [afterRecords, firstOccurrences_snoc, if_neg hmem, List.map_append,
        List.map_cons, List.map_nil, List.length_map, List.length_append, List.length_cons,
        List.length_nil, List.append_assoc]
      congr 1
      cases hfo : firstOccurrences rs with
      | nil =>
        cases hv : a.resultsDiv with
        | results st h c items => rw [hv] at hview; cases hview
        | initial => simp [withItem]
        | loading d h => simp [withItem]
        | noSubdomains => simp [withItem]
        | error m => simp [withItem]
      | cons x xs => simp [withItem]

/-! ## Reading a body -/

theorem find_setBuffer (streams : List ResponseStream) (id i : Nat) (old : Option Text)
    (buffer : Text)
    (h : streams.find? (fun r => r.id == id) = some { id := i, buffer := old }) :
    (streams.map (fun r => if r.id == id then { r with buffer := some buffer } else r)).find?
      (fun r => r.id == id) = some { id := i, buffer := some buffer } := by
  induction streams with
  | nil => cases h
  | cons x xs ih =>
    rw [List.map_cons]
    by_cases hx : (x.id == id) = true
    · simp only [List.find?_cons, hx, if_true] at h ⊢
      cases h
      rfl
    · have hx' : (x.id == id) = false := by simpa using hx
      simp only [List.find?_cons, hx', Bool.false_eq_true, if_false] at h ⊢
      exact ih h

theorem filter_setBuffer (streams : List ResponseStream) (id : Nat) (buffer : Text) :
    (streams.map (fun r => if r.id == id then { r with buffer := some buffer } else r)).filter
      (fun r => r.id != id) = streams.filter (fun r => r.id != id) := by
  induction streams with
  | nil => rfl
  | cons x xs ih =>
    rw [List.map_cons]
    by_cases hx : (x.id == id) = true
    · simp only [List.filter_cons, hx, if_true, bne, Bool.not_true, Bool.false_eq_true,
        if_false]
      exact ih
    · have hx' : (x.id == id) = false := by simpa using hx
      simp only [List.filter_cons, hx', bne, Bool.not_false, Bool.false_eq_true, if_false,
        if_true]
      rw [List.cons.injEq]
      exact ⟨rfl, ih⟩

theorem step_read (parse : Text → Except JsError JsValue) (s : State) (id i : Nat)
    (buffer value : Text) (h : findStream s id = some { id := i, buffer := some buffer }) :
    step parse s (.read id value) =
      setBuffer { s with app := (readChunk parse s.app buffer value).1 } id
        (readChunk parse s.app buffer value).2 := by
  simp only [step, h]

/-- The reads of one body, with no other event in between, run the loop of `streamResults`
on the object and leave the other requests alone. -/
theorem run_reads (parse : Text → Except JsError JsValue) (chunks : List Text) (s : State)
    (id i : Nat) (buffer : Text)
    (h : findStream s id = some { id := i, buffer := some buffer }) :
    (run parse s (chunks.map (Event.read id))).app = (readAll parse s.app buffer chunks).1 ∧
    findStream (run parse s (chunks.map (Event.read id))) id =
      some { id := i, buffer := some (readAll parse s.app buffer chunks).2 } ∧
    (run parse s (chunks.map (Event.read id))).streams.filter (fun r => r.id != id) =
      s.streams.filter (fun r => r.id != id) ∧
    (run parse s (chunks.map (Event.read id))).nextStream = s.nextStream := by
  induction chunks generalizing s buffer with
  | nil => exact ⟨rfl, h, rfl, rfl⟩
  | cons c cs ih =>
    have hstep := step_read parse s id i buffer c h
    have hfind : findStream (step parse s (.read id c)) id =
        some { id := i, buffer := some (readChunk parse s.app buffer c).2 } := by
      rw [hstep]
      exact find_setBuffer s.streams id i _ _ h
    obtain ⟨h1, h2, h3, h4⟩ := ih (step parse s (.read id c)) _ hfind
    simp only [run, List.map_cons, List.foldl_cons] at h1 h2 h3 h4 ⊢
    refine ⟨?_, ?_, ?_, ?_⟩
    · rw [h1, hstep]
      rfl
    · rw [h2, hstep]
      rfl
    · rw [h3, hstep]
      exact filter_setBuffer s.streams id _
    · rw [h4, hstep]
      rfl

theorem run_append (parse : Text → Except JsError JsValue) (s : State)
    (first second : List Event) :
    run parse s (first ++ second) = run parse (run parse s first) second := by
  simp [run, List.foldl_append]

/-- A body that is read to its end: the loop runs over the chunks, then `stopSearch`. -/
theorem run_reads_done (parse : Text → Except JsError JsValue) (chunks : List Text)
    (s : State) (id i : Nat) (buffer : Text)
    (h : findStream s id = some { id := i, buffer := some buffer }) :
    run parse s (chunks.map (Event.read id) ++ [.readDone id]) =
      { app := stopSearch (readAll parse s.app buffer chunks).1,
        streams := s.streams.filter (fun r => r.id != id),
        nextStream := s.nextStream } := by
  obtain ⟨h1, h2, h3, h4⟩ := run_reads parse chunks s id i buffer h
  rw [run_append]
  simp only [run, List.foldl_cons, List.foldl_nil, step] at h1 h2 h3 h4 ⊢
  rw [h2]
  simp only [endStream, h1, h3, h4]

/-! ## One session -/

theorem split_line (line rest : Text) (h : '\n' ∉ line) :
    split (line ++ '\n' :: rest) = line :: split rest := by
  induction line with
  | nil => exact split_cons_newline rest
  | cons c cs ih =>
    have hc : c ≠ '\n' := fun e => h (by simp [e])
    have hcs : '\n' ∉ cs := fun e => h (by simp [e])
    rw [List.cons_append, split_cons_other c _ hc, ih hcs]
    rfl

theorem split_lines (lines : List Text) (rest : Text) (h : ∀ l ∈ lines, '\n' ∉ l) :
    split ((lines.map (fun l => l ++ "\n".toList)).flatten ++ rest) = lines ++ split rest := by
  induction lines with
  | nil => rfl
  | cons l ls ih =>
    have hl := h l (List.mem_cons_self _ _)
    have hls : ∀ x ∈ ls, '\n' ∉ x := fun x hx => h x (List.mem_cons_of_mem _ hx)
    rw [List.map_cons, List.flatten_cons, List.append_assoc, List.append_assoc]
    show split (l ++ '\n' :: ((ls.map (fun l => l ++ "\n".toList)).flatten ++ rest)) = _
    rw [split_line l _ hl, ih hls]
    rfl

theorem no_newline_record_line (parse : Text → Except JsError JsValue) (r : Record)
    (h : r.WellFormed parse) : '\n' ∉ r.line := by
  intro hmem
  rcases List.mem_append.mp hmem with h1 | h1
  · revert h1
    decide
  · exact h.1 h1

/-- The lines that the framer hands on for the text of a stream of records. -/
theorem lines_streamText (parse : Text → Except JsError JsValue) (records : List Record)
    (hwf : ∀ r ∈ records, r.WellFormed parse) :
    popRest (split (streamText records)) =
      records.map Record.line ++ ["event: complete".toList] := by
  have hlines : ∀ l ∈ records.map Record.line, '\n' ∉ l := by
    intro l hl
    obtain ⟨r, hr, rfl⟩ := List.mem_map.mp hl
    exact no_newline_record_line parse r (hwf r hr)
  have h := split_lines (records.map Record.line) "event: complete\n".toList hlines
  rw [List.map_map] at h
  have htext : streamText records =
      (List.map ((fun l => l ++ "\n".toList) ∘ Record.line) records).flatten ++
        "event: complete\n".toList := rfl
  rw [htext, h]
  have htail : split "event: complete\n".toList = ["event: complete".toList, []] := by decide
  rw [htail, popRest_append _ _ (by simp)]
  rfl

theorem find_fresh (streams : List ResponseStream) (n : Nat) (h : ∀ r ∈ streams, r.id < n) :
    streams.find? (fun r => r.id == n) = none := by
  rw [List.find?_eq_none]
  intro r hr
  have := h r hr
  simp only [beq_iff_eq]
  omega

theorem map_fresh (streams : List ResponseStream) (n : Nat) (buffer : Text)
    (h : ∀ r ∈ streams, r.id < n) :
    streams.map (fun r => if r.id == n then { r with buffer := some buffer } else r) =
      streams := by
  induction streams with
  | nil => rfl
  | cons x xs ih =>
    have hx : ¬ (x.id == n) = true := by
      have := h x (List.mem_cons_self _ _)
      simp only [beq_iff_eq]
      omega
    rw [List.map_cons, if_neg hx, ih (fun r hr => h r (List.mem_cons_of_mem _ hr))]

theorem filter_fresh (streams : List ResponseStream) (n : Nat)
    (h : ∀ r ∈ streams, r.id < n) :
    streams.filter (fun r => r.id != n) = streams := by
  rw [List.filter_eq_self]
  intro r hr
  have := h r hr
  simp only [bne_iff_ne, ne_eq]
  omega

theorem endStream_fresh (s : State) (id : Nat) (h : FreshIds s) : FreshIds (endStream s id) :=
  fun r hr => h r (List.mem_filter.mp hr).1

theorem setBuffer_fresh (s : State) (id : Nat) (buffer : Text) (h : FreshIds s) :
    FreshIds (setBuffer s id buffer) := by
  intro r hr
  obtain ⟨x, hx, rfl⟩ := List.mem_map.mp hr
  have := h x hx
  split <;> exact this

theorem step_fresh (parse : Text → Except JsError JsValue) (s : State) (e : Event)
    (h : FreshIds s) : FreshIds (step parse s e) := by
  cases e with
  | input value => exact h
  | submit =>
    show FreshIds (if s.app.searchBtnDisabled then s else handleSubmit s)
    unfold handleSubmit
    split
    · exact h
    · split
      · exact h
      · dsimp only
        split
        · exact h
        · intro r hr
          rcases List.mem_append.mp hr with h1 | h1
          · exact Nat.lt_succ_of_lt (h r h1)
          · rw [List.mem_singleton] at h1
            rw [h1]
            exact Nat.lt_succ_self _
  | fetchRejected id message =>
    simp only [step]
    split
    · exact endStream_fresh s id h
    · exact h
  | response id status statusText noBody =>
    simp only [step]
    split
    · split
      · split
        · exact endStream_fresh s id h
        · exact setBuffer_fresh s id [] h
      · exact endStream_fresh s id h
    · exact h
  | read id value =>
    simp only [step]
    split
    · exact setBuffer_fresh _ id _ h
    · exact h
  | readDone id =>
    simp only [step]
    split
    · exact endStream_fresh s id h
    · exact h
  | readRejected id message =>
    simp only [step]
    split
    · exact endStream_fresh s id h
    · exact h

theorem reachable_fresh (parse : Text → Except JsError JsValue) (s : State)
    (hs : Reachable parse s) : FreshIds s := by
  obtain ⟨label, value, disabled, events, rfl⟩ := hs
  have key : ∀ (es : List Event) (t : State), FreshIds t → FreshIds (run parse t es) := by
    intro es
    induction es with
    | nil => exact fun t ht => ht
    | cons e es ih => exact fun t ht => ih (step parse t e) (step_fresh parse t e ht)
  exact key events (constructed label value disabled) (fun r hr => by cases hr)

/-- A submit event on an enabled button, with no search active and an input that is not
blank, runs `startSearch`. -/
theorem step_submit_idle (parse : Text → Except JsError JsValue) (s : State)
    (hidle : s.app.isSearching = false) (henabled : s.app.searchBtnDisabled = false)
    (hvalue : trim s.app.domainValue ≠ []) :
    step parse s .submit =
      { app := startSearchApp s.app (trim s.app.domainValue),
        streams := s.streams ++ [{ id := s.nextStream, buffer := none }],
        nextStream := s.nextStream + 1 } := by
  have hne : (trim s.app.domainValue).isEmpty = false := by
    cases ht : trim s.app.domainValue with
    | nil => exact absurd ht hvalue
    | cons c cs => rfl
  simp only [step, handleSubmit, hidle, henabled, hne, Bool.false_eq_true, if_false, startSearch,
    streamResults]

/-- The events of a session started while no search is active run `startSearch`, the loop of
`streamResults` on the lines that end with a newline, and `stopSearch`. -/
theorem run_session (parse : Text → Except JsError JsValue) (s : State)
    (chunks : List Text) (hfresh : FreshIds s) (hidle : s.app.isSearching = false)
    (henabled : s.app.searchBtnDisabled = false) (hvalue : trim s.app.domainValue ≠ []) :
    run parse s (sessionEvents s.nextStream chunks) =
      { app := stopSearch ((popRest (split chunks.flatten)).foldl (processStreamLine parse)
          (startSearchApp s.app (trim s.app.domainValue))),
        streams := s.streams,
        nextStream := s.nextStream + 1 } := by
  have hsubmit : step parse s .submit =
      { app := startSearchApp s.app (trim s.app.domainValue),
        streams := s.streams ++ [{ id := s.nextStream, buffer := none }],
        nextStream := s.nextStream + 1 } :=
    step_submit_idle parse s hidle henabled hvalue
  have hfind : ∀ (a : App) (buffer : Option Text),
      findStream { app := a, streams := s.streams ++ [{ id := s.nextStream, buffer := buffer }],
                   nextStream := s.nextStream + 1 } s.nextStream =
        some { id := s.nextStream, buffer := buffer } := by
    intro a buffer
    simp only [findStream, List.find?_append, find_fresh s.streams s.nextStream hfresh]
    simp
  have hstart : run parse s [.submit, .response s.nextStream 200 "OK".toList none] =
      { app := startSearchApp s.app (trim s.app.domainValue),
        streams := s.streams ++ [{ id := s.nextStream, buffer := some [] }],
        nextStream := s.nextStream + 1 } := by
    have h200 : (200 : Nat) ≤ 200 ∧ (200 : Nat) ≤ 299 := by decide
    simp only [run, List.foldl_cons, List.foldl_nil, hsubmit]
    simp only [step, hfind, h200, and_self, if_true]
    unfold setBuffer
    dsimp only
    rw [List.map_append, map_fresh s.streams s.nextStream [] hfresh, List.map_cons,
      List.map_nil, if_pos (by simp)]
  unfold sessionEvents
  rw [List.append_assoc, run_append, hstart,
    run_reads_done parse chunks _ s.nextStream s.nextStream [] (hfind _ _), foldl_frame,
    frame_eq _ _ split_nil]
  dsimp only
  rw [List.filter_append, filter_fresh s.streams s.nextStream hfresh]
  simp

theorem firstOccurrences_isEmpty (records : List Record) :
    (firstOccurrences records).isEmpty = records.isEmpty := by
  cases records <;> rfl

theorem specRecords_wellFormed : ∀ r ∈ specRecords, r.WellFormed jsonParse := by
  intro r hr
  simp only [specRecords, List.mem_cons, List.mem_singleton, List.not_mem_nil, or_false] at hr
  rcases hr with rfl | rfl
  · exact ⟨by decide, by decide, by decide, by decide, _, rfl, rfl, rfl⟩
  · exact ⟨by decide, by decide, by decide, by decide, _, rfl, rfl, rfl⟩

theorem dnsFirstRecords_wellFormed : ∀ r ∈ dnsFirstRecords, r.WellFormed jsonParse := by
  intro r hr
  simp only [dnsFirstRecords, List.mem_cons, List.mem_singleton, List.not_mem_nil, or_false]
    at hr
  rcases hr with rfl | rfl
  · exact ⟨by decide, by decide, by decide, by decide, _, rfl, rfl, rfl⟩
  · exact ⟨by decide, by decide, by decide, by decide, _, rfl, rfl, rfl⟩

/-! ## What a line can change -/

theorem addSubdomain_frame (a : App) (result : JsValue) :
    (addSubdomain a result).1.currentEventSource = a.currentEventSource ∧
    (addSubdomain a result).1.openEventSources = a.openEventSources ∧
    (addSubdomain a result).1.isSearching = a.isSearching ∧
    LogGrowsByResult a (addSubdomain a result).1 := by
  unfold addSubdomain LogGrowsByResult
  cases getProp result subdomainKey with
  | error e => exact ⟨rfl, rfl, rfl, Or.inl rfl⟩
  | ok key =>
    dsimp only
    by_cases hhas : setHas a.foundSubdomains key = true
    · rw [if_pos hhas]
      exact ⟨rfl, rfl, rfl, Or.inl rfl⟩
    · rw [if_neg hhas]
      cases createSubdomainItem result with
      | error e =>
        cases hv : a.resultsDiv <;>
          simp [hv, hasResultsContainer, createResultsContainer]
      | ok item =>
        cases hv : a.resultsDiv <;>
          simp [hv, hasResultsContainer, createResultsContainer, appendChild, updateCount]

theorem tryBlock_frame (parse : Text → Except JsError JsValue) (a : App) (data : Text) :
    (tryBlock parse a data).1.currentEventSource = a.currentEventSource ∧
    (tryBlock parse a data).1.openEventSources = a.openEventSources ∧
    (tryBlock parse a data).1.isSearching = a.isSearching ∧
    LogGrowsByResult a (tryBlock parse a data).1 := by
  unfold tryBlock
  cases parse data with
  | error e => exact ⟨rfl, rfl, rfl, Or.inl rfl⟩
  | ok result =>
    dsimp only
    cases getProp result subdomainKey with
    | error e => exact ⟨rfl, rfl, rfl, Or.inl rfl⟩
    | ok subdomain =>
      dsimp only
      by_cases ht : truthy subdomain = true
      · rw [if_pos ht]
        cases getProp result sourceKey with
        | error e => exact ⟨rfl, rfl, rfl, Or.inl rfl⟩
        | ok source =>
          dsimp only
          by_cases hs : truthy source = true
          · rw [if_pos hs]
            exact addSubdomain_frame a result
          · rw [if_neg hs]
            exact ⟨rfl, rfl, rfl, Or.inl rfl⟩
      · rw [if_neg ht]
        exact ⟨rfl, rfl, rfl, Or.inl rfl⟩

theorem showCompletionState_frame (a : App) :
    (showCompletionState a).currentEventSource = a.currentEventSource ∧
    (showCompletionState a).openEventSources = a.openEventSources ∧
    (showCompletionState a).isSearching = a.isSearching ∧
    ∃ n, isCompletion n = true ∧ (showCompletionState a).log = a.log ++ [n] := by
  unfold showCompletionState
  split
  · exact ⟨rfl, rfl, rfl, .noResults, rfl, rfl⟩
  · exact ⟨rfl, rfl, rfl, .completed, rfl, rfl⟩

/-- A line that is not a completion signal goes through the `try` block or is ignored. -/
theorem processStreamLine_other (parse : Text → Except JsError JsValue) (a : App)
    (line : Text) (h : isCompletionSignal line = false) :
    processStreamLine parse a line = a ∨
    processStreamLine parse a line = (tryBlock parse a (substring line 6)).1 ∨
    processStreamLine parse a line =
      withConsole (tryBlock parse a (substring line 6)).1
        ((tryBlock parse a (substring line 6)).1.console ++ [substring line 6]) := by
  unfold isCompletionSignal at h
  unfold processStreamLine
  by_cases hd : startsWith line "data: ".toList = true
  · rw [if_pos hd] at h ⊢
    have hp : ¬ substring line 6 = completionPayload := by
      intro hp
      rw [hp] at h
      simp at h
    dsimp only
    rw [if_neg hp]
    cases htry : tryBlock parse a (substring line 6) with
    | mk t thrown =>
      cases thrown with
      | none => exact Or.inr (Or.inl rfl)
      | some e => exact Or.inr (Or.inr rfl)
  · rw [if_neg hd] at h ⊢
    rw [if_neg (by rw [h]; decide)]
    exact Or.inl rfl

theorem processStreamLine_frame (parse : Text → Except JsError JsValue) (a : App)
    (line : Text) :
    (processStreamLine parse a line).currentEventSource = a.currentEventSource ∧
    (processStreamLine parse a line).openEventSources = a.openEventSources ∧
    (processStreamLine parse a line).isSearching = a.isSearching := by
  by_cases hsig : isCompletionSignal line = true
  · rw [processStreamLine_signal parse a line hsig]
    obtain ⟨h1, h2, h3, _⟩ := showCompletionState_frame a
    exact ⟨h1, h2, h3⟩
  · obtain ⟨h1, h2, h3, _⟩ := tryBlock_frame parse a (substring line 6)
    rcases processStreamLine_other parse a line (by simpa using hsig) with h | h | h
    · rw [h]
      exact ⟨rfl, rfl, rfl⟩
    · rw [h]
      exact ⟨h1, h2, h3⟩
    · rw [h]
      exact ⟨h1, h2, h3⟩

/-- The counts of terminal notifications after one line. -/
theorem processStreamLine_counts (parse : Text → Except JsError JsValue) (a : App)
    (line : Text) :
    (processStreamLine parse a line).log.countP isCompletion =
      a.log.countP isCompletion + (if isCompletionSignal line then 1 else 0) ∧
    (processStreamLine parse a line).log.countP isError = a.log.countP isError ∧
    (processStreamLine parse a line).log.countP isStopped = a.log.countP isStopped := by
  by_cases hsig : isCompletionSignal line = true
  · rw [processStreamLine_signal parse a line hsig, if_pos hsig]
    obtain ⟨_, _, _, n, hn, hlog⟩ := showCompletionState_frame a
    rw [hlog]
    cases n <;> simp [isCompletion] at hn <;>
      simp [List.countP_append, isCompletion, isError, isStopped]
  · rw [if_neg hsig]
    have hlog : LogGrowsByResult a (processStreamLine parse a line) := by
      obtain ⟨_, _, _, h4⟩ := tryBlock_frame parse a (substring line 6)
      rcases processStreamLine_other parse a line (by simpa using hsig) with h | h | h
      · rw [h]
        exact Or.inl rfl
      · rw [h]
        exact h4
      · rw [h]
        exact h4
    rcases hlog with h | ⟨item, h⟩
    · rw [h]
      exact ⟨rfl, rfl, rfl⟩
    · rw [h]
      simp [List.countP_append, isCompletion, isError, isStopped]

theorem foldl_counts (parse : Text → Except JsError JsValue) (lines : List Text) (a : App) :
    (lines.foldl (processStreamLine parse) a).log.countP isCompletion =
      a.log.countP isCompletion + lines.countP isCompletionSignal ∧
    (lines.foldl (processStreamLine parse) a).log.countP isError = a.log.countP isError ∧
    (lines.foldl (processStreamLine parse) a).log.countP isStopped =
      a.log.countP isStopped := by
  induction lines generalizing a with
  | nil => exact ⟨rfl, rfl, rfl⟩
  | cons l ls ih =>
    obtain ⟨h1, h2, h3⟩ := processStreamLine_counts parse a l
    obtain ⟨i1, i2, i3⟩ := ih (processStreamLine parse a l)
    rw [List.foldl_cons]
    refine ⟨?_, by rw [i2, h2], by rw [i3, h3]⟩
    rw [i1, h1, List.countP_cons]
    by_cases hl : isCompletionSignal l = true
    · simp only [hl, if_true]
      omega
    · simp only [hl]
      simp

/-- A body whose read fails: the loop runs over the chunks, then `showError` and
`stopSearch`. -/
theorem run_reads_rejected (parse : Text → Except JsError JsValue) (chunks : List Text)
    (s : State) (id i : Nat) (buffer message : Text)
    (h : findStream s id = some { id := i, buffer := some buffer }) :
    (run parse s (chunks.map (Event.read id) ++ [.readRejected id message])).app =
      catchFinally (readAll parse s.app buffer chunks).1 message := by
  obtain ⟨h1, h2, _, _⟩ := run_reads parse chunks s id i buffer h
  rw [run_append]
  simp only [run, List.foldl_cons, List.foldl_nil, step] at h1 h2 ⊢
  rw [h2]
  simp only [throwIn, endStream, h1]

theorem catchFinally_counts (a : App) (message : Text) :
    (catchFinally a message).log.countP isCompletion = a.log.countP isCompletion ∧
    (catchFinally a message).log.countP isError = a.log.countP isError + 1 ∧
    (catchFinally a message).log.countP isStopped = a.log.countP isStopped + 1 := by
  unfold catchFinally
  obtain ⟨h, _⟩ := stopSearch_fields (showError a ("Connection error: ".toList ++ message))
  rw [h]
  simp [showError, List.countP_append, isCompletion, isError, isStopped]

/-! ## Event sources -/

theorem stopSearch_holds (a : App) (h : HoldsItsEventSource a) :
    HoldsItsEventSource (stopSearch a) := by
  obtain ⟨h, _⟩ := h
  unfold HoldsItsEventSource
  unfold stopSearch updateUI validateInput
  cases hc : a.currentEventSource with
  | none =>
    rw [hc] at h
    simp [hc, h]
  | some source =>
    rw [hc] at h
    simp [hc, h]

theorem startSearchApp_holds (a : App) (domain : Text) (h : HoldsItsEventSource a) :
    (startSearchApp a domain).openEventSources = [a.nextEventSource] ∧
    (startSearchApp a domain).currentEventSource = some a.nextEventSource ∧
    (startSearchApp a domain).isSearching = true ∧
    (startSearchApp a domain).foundSubdomains = [] := by
  obtain ⟨h, _⟩ := h
  unfold startSearchApp updateUI validateInput showLoadingState
  cases hc : a.currentEventSource with
  | none =>
    rw [hc] at h
    simp [hc, h]
  | some source =>
    rw [hc] at h
    simp [hc, h]

theorem showError_holds (a : App) (message : Text) (h : HoldsItsEventSource a) :
    HoldsItsEventSource (showError a message) := h

theorem foldl_holds (parse : Text → Except JsError JsValue) (lines : List Text) (a : App)
    (h : HoldsItsEventSource a) :
    HoldsItsEventSource (lines.foldl (processStreamLine parse) a) := by
  induction lines generalizing a with
  | nil => exact h
  | cons l ls ih =>
    apply ih
    obtain ⟨h1, h2, h3⟩ := processStreamLine_frame parse a l
    unfold HoldsItsEventSource at h ⊢
    rw [h1, h2, h3]
    exact h

theorem step_holds (parse : Text → Except JsError JsValue) (s : State) (e : Event)
    (h : HoldsItsEventSource s.app) : HoldsItsEventSource (step parse s e).app := by
  cases e with
  | input value => exact h
  | submit =>
    show HoldsItsEventSource (if s.app.searchBtnDisabled then s else handleSubmit s).app
    by_cases hd : s.app.searchBtnDisabled = true
    · rw [if_pos hd]
      exact h
    · rw [if_neg hd]
      unfold handleSubmit
      by_cases hs : s.app.isSearching = true
      · rw [if_pos hs]
        exact stopSearch_holds s.app h
      · rw [if_neg hs]
        dsimp only
        by_cases he : (trim s.app.domainValue).isEmpty = true
        · rw [if_pos he]
          exact h
        · rw [if_neg he]
          obtain ⟨h1, h2, h3, _⟩ := startSearchApp_holds s.app (trim s.app.domainValue) h
          show HoldsItsEventSource (startSearchApp s.app (trim s.app.domainValue))
          unfold HoldsItsEventSource
          rw [h1, h2, h3]
          exact ⟨rfl, rfl⟩
  | fetchRejected id message =>
    simp only [step]
    split
    · exact stopSearch_holds _ (showError_holds _ _ h)
    · exact h
  | response id status statusText noBody =>
    simp only [step]
    split
    · split
      · split
        · exact stopSearch_holds _ (showError_holds _ _ h)
        · exact h
      · exact stopSearch_holds _ (showError_holds _ _ h)
    · exact h
  | read id value =>
    simp only [step]
    split
    · exact foldl_holds parse _ s.app h
    · exact h
  | readDone id =>
    simp only [step]
    split
    · exact stopSearch_holds s.app h
    · exact h
  | readRejected id message =>
    simp only [step]
    split
    · exact stopSearch_holds _ (showError_holds _ _ h)
    · exact h

theorem run_holds (parse : Text → Except JsError JsValue) (events : List Event) (s : State)
    (h : HoldsItsEventSource s.app) : HoldsItsEventSource (run parse s events).app := by
  induction events generalizing s with
  | nil => exact h
  | cons e es ih => exact ih (step parse s e) (step_holds parse s e h)

/-! ## The button and the response bodies -/

/-- While a search is active `validateInput` disables the button. -/
theorem validateInput_searching (a : App) (h : a.isSearching = true) :
    (validateInput a).searchBtnDisabled = true := by
  simp [validateInput, h]

theorem startSearchApp_disabled (a : App) (domain : Text) :
    (startSearchApp a domain).searchBtnDisabled = true := by
  unfold startSearchApp updateUI validateInput showLoadingState
  cases a.currentEventSource <;> simp

theorem addSubdomain_disabled (a : App) (result : JsValue) :
    (addSubdomain a result).1.searchBtnDisabled = a.searchBtnDisabled := by
  unfold addSubdomain
  cases getProp result subdomainKey with
  | error e => rfl
  | ok key =>
    dsimp only
    by_cases hhas : setHas a.foundSubdomains key = true
    · rw [if_pos hhas]
    · rw [if_neg hhas]
      cases createSubdomainItem result with
      | error e =>
        cases hv : a.resultsDiv <;>
          simp [hv, hasResultsContainer, createResultsContainer]
      | ok item =>
        cases hv : a.resultsDiv <;>
          simp [hv, hasResultsContainer, createResultsContainer, appendChild, updateCount]

theorem tryBlock_disabled (parse : Text → Except JsError JsValue) (a : App) (data : Text) :
    (tryBlock parse a data).1.searchBtnDisabled = a.searchBtnDisabled := by
  unfold tryBlock
  cases parse data with
  | error e => rfl
  | ok result =>
    dsimp only
    cases getProp result subdomainKey with
    | error e => rfl
    | ok subdomain =>
      dsimp only
      by_cases ht : truthy subdomain = true
      · rw [if_pos ht]
        cases getProp result sourceKey with
        | error e => rfl
        | ok source =>
          dsimp only
          by_cases hs : truthy source = true
          · rw [if_pos hs]
            exact addSubdomain_disabled a result
          · rw [if_neg hs]
      · rw [if_neg ht]

theorem processStreamLine_disabled (parse : Text → Except JsError JsValue) (a : App)
    (line : Text) :
    (processStreamLine parse a line).searchBtnDisabled = a.searchBtnDisabled := by
  by_cases hsig : isCompletionSignal line = true
  · rw [processStreamLine_signal parse a line hsig]
    unfold showCompletionState
    split <;> rfl
  · have h1 := tryBlock_disabled parse a (substring line 6)
    rcases processStreamLine_other parse a line (by simpa using hsig) with h | h | h
    · rw [h]
    · rw [h]
      exact h1
    · rw [h]
      exact h1

/-- The loop of `streamResults` leaves `isSearching` and the button as they are. -/
theorem foldl_button (parse : Text → Except JsError JsValue) (lines : List Text) (a : App) :
    (lines.foldl (processStreamLine parse) a).isSearching = a.isSearching ∧
    (lines.foldl (processStreamLine parse) a).searchBtnDisabled = a.searchBtnDisabled := by
  induction lines generalizing a with
  | nil => exact ⟨rfl, rfl⟩
  | cons l ls ih =>
    obtain ⟨i1, i2⟩ := ih (processStreamLine parse a l)
    rw [List.foldl_cons, i1, i2, (processStreamLine_frame parse a l).2.2,
      processStreamLine_disabled parse a l]
    exact ⟨rfl, rfl⟩

/-- A request that has not ended belongs to the one active search. -/
theorem findStream_single (s : State) (id : Nat) (x : ResponseStream) (h : OneSession s)
    (hfind : findStream s id = some x) :
    s.app.isSearching = true ∧ s.streams = [x] ∧ x.id = id := by
  cases hsr : s.app.isSearching with
  | false =>
    rw [findStream, h.2 hsr] at hfind
    cases hfind
  | true =>
    obtain ⟨_, r, hr⟩ := h.1 hsr
    rw [findStream, hr, List.find?_cons] at hfind
    cases hid : r.id == id with
    | false =>
      rw [hid] at hfind
      cases hfind
    | true =>
      rw [hid] at hfind
      cases hfind
      exact ⟨rfl, hr, beq_iff_eq.mp hid⟩

theorem endStream_single (s : State) (id : Nat) (x : ResponseStream) (h : OneSession s)
    (hfind : findStream s id = some x) : (endStream s id).streams = [] := by
  obtain ⟨_, hx, hid⟩ := findStream_single s id x h hfind
  unfold endStream
  dsimp only
  rw [hx, List.filter_cons, if_neg (by simp [hid]), List.filter_nil]

theorem setBuffer_single (s : State) (id : Nat) (buffer : Text) (x : ResponseStream)
    (h : OneSession s) (hfind : findStream s id = some x) :
    ∃ r, (setBuffer s id buffer).streams = [r] := by
  obtain ⟨_, hx, _⟩ := findStream_single s id x h hfind
  unfold setBuffer
  dsimp only
  rw [hx]
  exact ⟨_, rfl⟩

/-- A request that leaves the `try` block with an exception ends the search. -/
theorem throwIn_oneSession (s : State) (id : Nat) (message : Text) (x : ResponseStream)
    (h : OneSession s) (hfind : findStream s id = some x) :
    OneSession (throwIn s id message) := by
  have hidle : (throwIn s id message).app.isSearching = false :=
    (stopSearch_fields _).2.2.2.1
  constructor
  · intro hsr
    rw [hidle] at hsr
    cases hsr
  · intro _
    exact endStream_single s id x h hfind

/-- The end of the body ends the search. -/
theorem readDone_oneSession (s : State) (id : Nat) (x : ResponseStream)
    (h : OneSession s) (hfind : findStream s id = some x) :
    OneSession { endStream s id with app := stopSearch s.app } := by
  have hidle : (stopSearch s.app).isSearching = false := (stopSearch_fields _).2.2.2.1
  constructor
  · intro hsr
    change (stopSearch s.app).isSearching = true at hsr
    rw [hidle] at hsr
    cases hsr
  · intro _
    exact endStream_single s id x h hfind

/-- A chunk leaves the search active, with its one request. -/
theorem setBuffer_oneSession (s : State) (a : App) (id : Nat) (buffer : Text)
    (x : ResponseStream) (h : OneSession s) (hfind : findStream s id = some x)
    (hsr : a.isSearching = s.app.isSearching)
    (hbtn : a.searchBtnDisabled = s.app.searchBtnDisabled) :
    OneSession (setBuffer { s with app := a } id buffer) := by
  obtain ⟨hactive, _, _⟩ := findStream_single s id x h hfind
  constructor
  · intro _
    refine ⟨?_, setBuffer_single s id buffer x h hfind⟩
    change a.searchBtnDisabled = true
    rw [hbtn]
    exact (h.1 hactive).1
  · intro hidle
    change a.isSearching = false at hidle
    rw [hsr, hactive] at hidle
    cases hidle

theorem step_oneSession (parse : Text → Except JsError JsValue) (s : State) (e : Event)
    (h : OneSession s) : OneSession (step parse s e) := by
  cases e with
  | input value =>
    constructor
    · intro hsr
      exact ⟨validateInput_searching _ hsr, (h.1 hsr).2⟩
    · intro hidle
      exact h.2 hidle
  | submit =>
    show OneSession (if s.app.searchBtnDisabled then s else handleSubmit s)
    by_cases hd : s.app.searchBtnDisabled = true
    · rw [if_pos hd]
      exact h
    · rw [if_neg hd]
      have hidle : s.app.isSearching = false := by
        cases hsr : s.app.isSearching with
        | false => rfl
        | true => exact absurd (h.1 hsr).1 hd
      unfold handleSubmit
      rw [if_neg (by rw [hidle]; decide)]
      dsimp only
      by_cases he : (trim s.app.domainValue).isEmpty = true
      · rw [if_pos he]
        exact h
      · rw [if_neg he]
        have hsr : (startSearchApp s.app (trim s.app.domainValue)).isSearching = true := by
          unfold startSearchApp updateUI validateInput showLoadingState
          cases s.app.currentEventSource <;> rfl
        constructor
        · intro _
          refine ⟨startSearchApp_disabled _ _, ⟨{ id := s.nextStream, buffer := none }, ?_⟩⟩
          show s.streams ++ [{ id := s.nextStream, buffer := none }] = _
          rw [h.2 hidle]
          rfl
        · intro hfalse
          change (startSearchApp s.app (trim s.app.domainValue)).isSearching = false at hfalse
          rw [hsr] at hfalse
          cases hfalse
  | fetchRejected id message =>
    cases hf : findStream s id with
    | none =>
      simp only [step, hf]
      exact h
    | some x =>
      obtain ⟨i, buffer⟩ := x
      cases buffer with
      | none =>
        simp only [step, hf]
        exact throwIn_oneSession s id message _ h hf
      | some b =>
        simp only [step, hf]
        exact h
  | response id status statusText noBody =>
    cases hf : findStream s id with
    | none =>
      simp only [step, hf]
      exact h
    | some x =>
      obtain ⟨i, buffer⟩ := x
      cases buffer with
      | none =>
        simp only [step, hf]
        split
        · split
          · exact throwIn_oneSession s id _ _ h hf
          · exact setBuffer_oneSession s s.app id [] _ h hf rfl rfl
        · exact throwIn_oneSession s id _ _ h hf
      | some b =>
        simp only [step, hf]
        exact h
  | read id value =>
    cases hf : findStream s id with
    | none =>
      simp only [step, hf]
      exact h
    | some x =>
      obtain ⟨i, buffer⟩ := x
      cases buffer with
      | none =>
        simp only [step, hf]
        exact h
      | some b =>
        simp only [step, hf]
        obtain ⟨h1, h2⟩ := foldl_button parse (feed b value).1 s.app
        exact setBuffer_oneSession s _ id _ _ h hf h1 h2
  | readDone id =>
    cases hf : findStream s id with
    | none =>
      simp only [step, hf]
      exact h
    | some x =>
      obtain ⟨i, buffer⟩ := x
      cases buffer with
      | none =>
        simp only [step, hf]
        exact h
      | some b =>
        simp only [step, hf]
        exact readDone_oneSession s id _ h hf
  | readRejected id message =>
    cases hf : findStream s id with
    | none =>
      simp only [step, hf]
      exact h
    | some x =>
      obtain ⟨i, buffer⟩ := x
      cases buffer with
      | none =>
        simp only [step, hf]
        exact h
      | some b =>
        simp only [step, hf]
        exact throwIn_oneSession s id message _ h hf

theorem run_oneSession (parse : Text → Except JsError JsValue) (events : List Event)
    (s : State) (h : OneSession s) : OneSession (run parse s events) := by
  induction events generalizing s with
  | nil => exact h
  | cons e es ih => exact ih (step parse s e) (step_oneSession parse s e h)

theorem reachable_oneSession (parse : Text → Except JsError JsValue) (s : State)
    (hs : Reachable parse s) : OneSession s := by
  obtain ⟨label, value, disabled, events, rfl⟩ := hs
  have hstart : OneSession (constructed label value disabled) :=
    And.intro (fun h => nomatch h) (fun _ => rfl)
  exact run_oneSession parse events _ hstart

/-- On a page the code can reach, an enabled button means that no search is active. -/
theorem enabled_idle (s : State) (h : OneSession s) (henabled : s.app.searchBtnDisabled = false) :
    s.app.isSearching = false := by
  cases hsr : s.app.isSearching with
  | false => rfl
  | true =>
    rw [(h.1 hsr).1] at henabled
    cases henabled

/-! ## Requests that have ended -/

theorem endStream_ended (n : Nat) (s : State) (id : Nat) (h : EndedBelow n s) :
    EndedBelow n (endStream s id) :=
  ⟨h.1, fun r hr => h.2 r (List.mem_filter.mp hr).1⟩

theorem setBuffer_ended (n : Nat) (s : State) (id : Nat) (buffer : Text)
    (h : EndedBelow n s) : EndedBelow n (setBuffer s id buffer) := by
  refine ⟨h.1, ?_⟩
  intro r hr
  obtain ⟨x, hx, rfl⟩ := List.mem_map.mp hr
  have := h.2 x hx
  split <;> exact this

theorem step_ended (parse : Text → Except JsError JsValue) (n : Nat) (s : State) (e : Event)
    (h : EndedBelow n s) : EndedBelow n (step parse s e) := by
  cases e with
  | input value => exact h
  | submit =>
    show EndedBelow n (if s.app.searchBtnDisabled then s else handleSubmit s)
    unfold handleSubmit
    split
    · exact h
    · split
      · exact h
      · dsimp only
        split
        · exact h
        · refine ⟨Nat.le_succ_of_le h.1, ?_⟩
          intro r hr
          rcases List.mem_append.mp hr with h1 | h1
          · exact h.2 r h1
          · rw [List.mem_singleton] at h1
            rw [h1]
            exact h.1
  | fetchRejected id message =>
    simp only [step]
    split
    · exact endStream_ended n s id h
    · exact h
  | response id status statusText noBody =>
    simp only [step]
    split
    · split
      · split
        · exact endStream_ended n s id h
        · exact setBuffer_ended n s id [] h
      · exact endStream_ended n s id h
    · exact h
  | read id value =>
    simp only [step]
    split
    · exact setBuffer_ended n _ id _ h
    · exact h
  | readDone id =>
    simp only [step]
    split
    · exact endStream_ended n s id h
    · exact h
  | readRejected id message =>
    simp only [step]
    split
    · exact endStream_ended n s id h
    · exact h

theorem run_ended (parse : Text → Except JsError JsValue) (n : Nat) (events : List Event)
    (s : State) (h : EndedBelow n s) : EndedBelow n (run parse s events) := by
  induction events generalizing s with
  | nil => exact h
  | cons e es ih => exact ih (step parse s e) (step_ended parse n s e h)

/-- A chunk of a request that has ended is not processed. -/
theorem read_ended (parse : Text → Except JsError JsValue) (n : Nat) (s : State)
    (id : Nat) (value : Text) (h : EndedBelow n s) (hid : id < n) :
    step parse s (.read id value) = s := by
  have hf : findStream s id = none := by
    unfold findStream
    rw [List.find?_eq_none]
    intro r hr
    have := h.2 r hr
    simp only [beq_iff_eq]
    omega
  simp only [step, hf]

/-! ## Claims -/

/-- C1. Split-invariance of the line framer: two sequences of chunks with the same
concatenated text hand the same lines, in the same order, to `processStreamLine` and leave
the same buffer, so the loop of `streamResults` ends in the same state for both. -/
theorem frame_split_invariant (parse : Text → Except JsError JsValue) (s : App)
    (chunks₁ chunks₂ : List Text) (h : chunks₁.flatten = chunks₂.flatten) :
    frame [] chunks₁ = frame [] chunks₂ ∧
      readAll parse s [] chunks₁ = readAll parse s [] chunks₂ := by
  have hf : frame [] chunks₁ = frame [] chunks₂ := by
    rw [frame_eq _ _ split_nil, frame_eq _ _ split_nil, h]
  exact ⟨hf, by rw [foldl_frame, foldl_frame, hf]⟩

/-- C1, at one text cut in two ways: in the middle of a line and around a newline, with an
empty chunk. -/
theorem frame_split_invariant_witness :
    ["ab\ncd".toList, "\n".toList].flatten = ["a".toList, [], "b\n".toList, "cd\n".toList].flatten ∧
    frame [] ["ab\ncd".toList, "\n".toList] = (["ab".toList, "cd".toList], []) ∧
    frame [] ["ab\ncd".toList, "\n".toList] =
      frame [] ["a".toList, [], "b\n".toList, "cd\n".toList] :=
  ⟨by decide, by decide,
    (frame_split_invariant jsonParse (constructed [] [] false).app _ _ (by decide)).1⟩

/-- C2. Starting from an empty set, after a sequence of results with string subdomains has
been offered to `addSubdomain`, the size of the set is the number of distinct subdomains, the
count shown by `updateCount` is that number, and every reordering of the sequence gives the
same size. -/
theorem dedup_count (s : App) (results : List JsValue)
    (hempty : s.foundSubdomains = [])
    (hstr : ∀ r ∈ results, getProp r subdomainKey = .ok (.string (subdomainText r))) :
    (addAll s results).foundSubdomains.length = (results.map subdomainText).dedup.length ∧
    (results ≠ [] →
      shownCount (addAll s results).resultsDiv =
        some (results.map subdomainText).dedup.length) ∧
    ∀ reordered : List JsValue, reordered.Perm results →
      (addAll s reordered).foundSubdomains.length =
        (results.map subdomainText).dedup.length := by
  have key : ∀ rs : List JsValue,
      (∀ r ∈ rs, getProp r subdomainKey = .ok (.string (subdomainText r))) →
      (addAll s rs).foundSubdomains.length = (rs.map subdomainText).dedup.length ∧
      (rs ≠ [] → shownCount (addAll s rs).resultsDiv = some (rs.map subdomainText).dedup.length) := by
    intro rs hrs
    obtain ⟨total, h1, h2, h3, h4⟩ := addAll_strings rs s [] (by rw [hempty]; rfl) List.nodup_nil hrs
    have hlen : total.length = (rs.map subdomainText).dedup.length :=
      length_eq_dedup_length total _ h2 (fun k => by rw [h3 k]; simp)
    refine ⟨by rw [h1, List.length_map, hlen], ?_⟩
    intro hne
    rw [h4 (Or.inr ⟨rfl, hne⟩), hlen]
  refine ⟨(key results hstr).1, (key results hstr).2, ?_⟩
  intro reordered hperm
  have hstr' : ∀ r ∈ reordered,
      getProp r subdomainKey = .ok (.string (subdomainText r)) :=
    fun r hr => hstr r (hperm.mem_iff.mp hr)
  rw [(key reordered hstr').1]
  exact ((hperm.map subdomainText).dedup).length_eq

/-- C2 on three results, two of them for the same subdomain: the count is 2 in the given
order and in the reverse order. -/
theorem dedup_count_witness :
    (addAll (constructed [] [] false).app sampleResults).foundSubdomains.length = 2 ∧
    shownCount (addAll (constructed [] [] false).app sampleResults).resultsDiv = some 2 ∧
    (addAll (constructed [] [] false).app sampleResults.reverse).foundSubdomains.length = 2 :=
  have h := dedup_count (constructed [] [] false).app sampleResults rfl (by
    intro r hr
    simp only [sampleResults, List.mem_cons, List.mem_singleton, List.not_mem_nil, or_false] at hr
    rcases hr with rfl | rfl | rfl <;> rfl)
  ⟨h.1.trans (by decide), (h.2.1 (by simp [sampleResults])).trans (by decide),
    (h.2.2 _ (List.reverse_perm _)).trans (by decide)⟩

/-- C3. First seen wins, in arrival order: for a session started by a submit on any page the
code can reach, whose stream, cut into chunks in any way, carries well-formed records and then
`event: complete`, the notifications of the session are one result per distinct subdomain, in
the order of first occurrence, each naming the source of the first occurrence of its
subdomain (`Record.item`), then the completion, then the stop; the set holds the distinct
subdomains, and the page shows the completed status, their count and their items (the
no-results message when there is no record). -/
theorem first_seen_wins (parse : Text → Except JsError JsValue) (s : State)
    (records : List Record) (chunks : List Text)
    (hs : Reachable parse s) (henabled : s.app.searchBtnDisabled = false)
    (hvalue : trim s.app.domainValue ≠ [])
    (hwf : ∀ r ∈ records, r.WellFormed parse)
    (hchunks : chunks.flatten = streamText records) :
    (run parse s (sessionEvents s.nextStream chunks)).app.log =
      s.app.log ++ [.started (trim s.app.domainValue)] ++
        (firstOccurrences records).map (fun r => .result r.item) ++
        [if records.isEmpty then .noResults else .completed, .stopped] ∧
    (run parse s (sessionEvents s.nextStream chunks)).app.foundSubdomains =
      (firstOccurrences records).map (fun r => JsValue.string r.subdomain) ∧
    (run parse s (sessionEvents s.nextStream chunks)).app.foundSubdomains.length =
      (records.map Record.subdomain).dedup.length ∧
    (run parse s (sessionEvents s.nextStream chunks)).app.resultsDiv =
      if records.isEmpty then .noSubdomains
      else
        .results completedText true (records.map Record.subdomain).dedup.length
          ((firstOccurrences records).map Record.item) := by
  have hidle : s.app.isSearching = false :=
    enabled_idle s (reachable_oneSession parse s hs) henabled
  have hstarted : (startSearchApp s.app (trim s.app.domainValue)).foundSubdomains = [] ∧
      (startSearchApp s.app (trim s.app.domainValue)).resultsDiv =
        .loading (trim s.app.domainValue) false ∧
      (startSearchApp s.app (trim s.app.domainValue)).log =
        s.app.log ++ [.started (trim s.app.domainValue)] := by
    unfold startSearchApp updateUI showLoadingState
    cases s.app.currentEventSource <;> exact ⟨rfl, rfl, rfl⟩
  obtain ⟨hfound0, hview0, hlog0⟩ := hstarted
  rw [run_session parse s chunks (reachable_fresh parse s hs) hidle henabled hvalue, hchunks,
    lines_streamText parse records hwf, List.foldl_append,
    foldl_records parse (startSearchApp s.app (trim s.app.domainValue)) records hfound0
      (by rw [hview0]; rfl) hwf]
  simp only [List.foldl_cons, List.foldl_nil]
  rw [processStreamLine_signal parse _ _ (by decide)]
  obtain ⟨hlog, hview, hfound, _, _⟩ := stopSearch_fields (showCompletionState
    (afterRecords (startSearchApp s.app (trim s.app.domainValue)) records))
  rw [hlog, hview, hfound]
  have hlen := length_firstOccurrences records
  cases hrec : records with
  | nil =>
    have hzero : (afterRecords (startSearchApp s.app (trim s.app.domainValue))
        []).foundSubdomains.length = 0 := rfl
    rw [showCompletionState_empty _ hzero]
    refine ⟨?_, rfl, rfl, rfl⟩
    simp [afterRecords, firstOccurrences, hlog0]
  | cons r rs =>
    rw [← hrec]
    have hne : (afterRecords (startSearchApp s.app (trim s.app.domainValue))
        records).foundSubdomains.length ≠ 0 := by
      rw [hrec]
      simp [afterRecords, firstOccurrences]
    have hempty : records.isEmpty = false := by rw [hrec]; rfl
    have hempty' : (firstOccurrences records).isEmpty = false := by
      rw [firstOccurrences_isEmpty, hempty]
    rw [showCompletionState_nonempty _ hne]
    refine ⟨?_, rfl, ?_, ?_⟩
    · simp [afterRecords, hlog0, hempty]
    · simp [afterRecords, hlen]
    · simp [afterRecords, hempty, hempty', setSearchStatus, hideProgress, hlen]

/-- C3 on the three chunks of the specification: one result for `a.example.com`, labelled
as coming from the certificate transparency logs, then the completion, with a count of 1.
With the two records in the other order, and the stream cut in the middle of its lines, the
one result is labelled as coming from the DNS enumeration. -/
theorem first_seen_wins_witness :
    Reachable jsonParse ready ∧
    ready.app.searchBtnDisabled = false ∧
    trim ready.app.domainValue ≠ [] ∧
    specChunks.flatten = streamText specRecords ∧
    (run jsonParse ready (sessionEvents 0 specChunks)).app.log =
      [.started "example.com".toList,
       .result { subdomain := .string (utf16 "a.example.com".toList),
                 sourceClass := "source-ct".toList, sourceText := "CT Logs".toList },
       .completed, .stopped] ∧
    (run jsonParse ready (sessionEvents 0 specChunks)).app.resultsDiv =
      .results completedText true 1
        [{ subdomain := .string (utf16 "a.example.com".toList),
           sourceClass := "source-ct".toList, sourceText := "CT Logs".toList }] ∧
    dnsFirstChunks.flatten = streamText dnsFirstRecords ∧
    (run jsonParse ready (sessionEvents 0 dnsFirstChunks)).app.log =
      [.started "example.com".toList,
       .result { subdomain := .string (utf16 "a.example.com".toList),
                 sourceClass := "source-dns".toList, sourceText := "DNS Enum".toList },
       .completed, .stopped] ∧
    (run jsonParse ready (sessionEvents 0 dnsFirstChunks)).app.resultsDiv =
      .results completedText true 1
        [{ subdomain := .string (utf16 "a.example.com".toList),
           sourceClass := "source-dns".toList, sourceText := "DNS Enum".toList }] :=
  have hready : Reachable jsonParse ready := ⟨[], [], false, [.input "example.com".toList], rfl⟩
  have h := first_seen_wins jsonParse ready specRecords specChunks hready rfl (by decide)
    specRecords_wellFormed (by decide)
  have h2 := first_seen_wins jsonParse ready dnsFirstRecords dnsFirstChunks hready rfl
    (by decide) dnsFirstRecords_wellFormed (by decide)
  ⟨hready, rfl, by decide, by decide, h.1.trans rfl, h.2.2.2.trans rfl,
    by decide, h2.1.trans rfl, h2.2.2.2.trans rfl⟩

/-- C4, as stated, fails on the stream `event: complete` with no newline at its end: when
the body ends the buffer holds that text, the session ends without any completion, and
passing the buffer to `processStreamLine` would have reported one. -/
theorem flush_counterexample :
    (frame [] ["event: complete".toList]).2 = "event: complete".toList ∧
    (run jsonParse ready
      (sessionEvents 0 ["event: complete".toList])).app.log =
        [.started "example.com".toList, .stopped] ∧
    (stopSearch (processStreamLine jsonParse
      (readAll jsonParse responding.app [] ["event: complete".toList]).1
      (readAll jsonParse responding.app [] ["event: complete".toList]).2)).log =
        [.started "example.com".toList, .noResults, .stopped] :=
  ⟨by decide, rfl, rfl⟩

/-- C4, amended. When the body ends, the text left in the buffer is discarded: the lines
processed are the ones that end with a newline, so text after the last newline of the stream
has no effect on the state in which the session ends. -/
theorem unterminated_tail_discarded (parse : Text → Except JsError JsValue) (s : State)
    (id i : Nat) (chunks : List Text) (tail : Text)
    (hopen : findStream s id = some { id := i, buffer := some [] })
    (htail : '\n' ∉ tail) :
    (run parse s (chunks.map (Event.read id) ++ [.readDone id])).app =
      stopSearch ((popRest (split chunks.flatten)).foldl (processStreamLine parse) s.app) ∧
    run parse s ((chunks ++ [tail]).map (Event.read id) ++ [.readDone id]) =
      run parse s (chunks.map (Event.read id) ++ [.readDone id]) := by
  constructor
  · rw [run_reads_done parse chunks s id i [] hopen, foldl_frame, frame_eq _ _ split_nil]
    rfl
  · rw [run_reads_done parse chunks s id i [] hopen,
      run_reads_done parse (chunks ++ [tail]) s id i [] hopen, foldl_frame, foldl_frame,
      frame_append_tail chunks [] tail split_nil htail]

/-- C4, amended, on the stream `event: complete` with no newline at its end. -/
theorem unterminated_tail_discarded_witness :
    findStream responding 0 = some { id := 0, buffer := some [] } ∧
    '\n' ∉ "event: complete".toList ∧
    run jsonParse responding
        (([] ++ ["event: complete".toList]).map (Event.read 0) ++ [.readDone 0]) =
      run jsonParse responding ([].map (Event.read 0) ++ [.readDone 0]) :=
  ⟨rfl, by decide,
    (unterminated_tail_discarded jsonParse responding 0 0 [] "event: complete".toList rfl
      (by decide)).2⟩

/-- C5. No result after the stop: in every state the page can reach in which `isSearching` is
not set, as it is after every run of `stopSearch`, no invocation of `streamResults` is still
reading a body; and whatever happens later, a chunk of a body requested before that state,
even one that carries a well-formed record with a new subdomain, is not processed: it leaves
the set, the page and the notifications as they are. -/
theorem no_result_after_stop (parse : Text → Except JsError JsValue) (s : State)
    (hs : Reachable parse s) (hstopped : s.app.isSearching = false) :
    s.streams = [] ∧
    ∀ (later : List Event) (id : Nat) (value : Text), id < s.nextStream →
      step parse (run parse s later) (.read id value) = run parse s later ∧
      (step parse (run parse s later) (.read id value)).app.foundSubdomains =
        (run parse s later).app.foundSubdomains ∧
      (step parse (run parse s later) (.read id value)).app.log =
        (run parse s later).app.log := by
  have hnone : s.streams = [] := (reachable_oneSession parse s hs).2 hstopped
  refine ⟨hnone, ?_⟩
  intro later id value hid
  have hended : EndedBelow s.nextStream s :=
    ⟨Nat.le_refl _, fun r hr => by rw [hnone] at hr; cases hr⟩
  have hstep := read_ended parse s.nextStream (run parse s later) id value
    (run_ended parse s.nextStream later s hended) hid
  exact ⟨hstep, by rw [hstep], by rw [hstep]⟩

/-- C5 on a search that has shown one record when its body ends: `stopSearch` has run once,
no body is open, and a chunk with a record for `b.example.com` on the body of that search
adds nothing, also after the next search has started. -/
theorem no_result_after_stop_witness :
    Reachable jsonParse ended ∧
    ended.app.isSearching = false ∧
    ended.app.log.countP isStopped = 1 ∧
    ended.app.foundSubdomains = [.string (utf16 "a.example.com".toList)] ∧
    ended.streams = [] ∧
    (step jsonParse ended
      (.read 0 "data: \x7b\"subdomain\":\"b.example.com\",\"source\":\"DNS Enum\"\x7d\n".toList)
      ).app.foundSubdomains = [.string (utf16 "a.example.com".toList)] ∧
    (step jsonParse (run jsonParse ended [.submit, .response 1 200 "OK".toList none])
      (.read 0 "data: \x7b\"subdomain\":\"b.example.com\",\"source\":\"DNS Enum\"\x7d\n".toList)
      ).app.foundSubdomains = [] :=
  have hended : Reachable jsonParse ended :=
    ⟨[], [], false, .input "example.com".toList :: sessionEvents 0 noSignal, rfl⟩
  have h := no_result_after_stop jsonParse ended hended rfl
  ⟨hended, rfl, by decide, rfl, h.1,
    (h.2 [] 0 _ (by decide)).2.1.trans rfl,
    (h.2 [.submit, .response 1 200 "OK".toList none] 0 _ (by decide)).2.1.trans rfl⟩

/-- C6, as stated, fails on a response with status 200 whose body ends at the first read:
`showError` is not called, and the page still shows the loading message. -/
theorem abrupt_close_counterexample :
    (run jsonParse ready (sessionEvents 0 [])).app.log =
      [.started "example.com".toList, .stopped] ∧
    (run jsonParse ready (sessionEvents 0 [])).app.resultsDiv =
      .loading "example.com".toList false :=
  ⟨rfl, rfl⟩

/-- C6, amended. For a response with a success status whose body ends at the first read,
`streamResults` calls neither `showError` nor `showCompletionState`: it runs `stopSearch`
only, so the only notification is the stop and the content of `#results` stays as it was. -/
theorem empty_body_ends_silently (parse : Text → Except JsError JsValue) (s : State)
    (id i status : Nat) (statusText : Text)
    (hpending : findStream s id = some { id := i, buffer := none })
    (hok : 200 ≤ status ∧ status ≤ 299) :
    (run parse s [.response id status statusText none, .readDone id]).app = stopSearch s.app ∧
    (run parse s [.response id status statusText none, .readDone id]).app.log =
      s.app.log ++ [.stopped] ∧
    (run parse s [.response id status statusText none, .readDone id]).app.resultsDiv =
      s.app.resultsDiv ∧
    (run parse s [.response id status statusText none, .readDone id]).app.isSearching = false := by
  have hstep : step parse s (.response id status statusText none) = setBuffer s id [] := by
    simp only [step, hpending, hok, and_self, if_true]
  have hfind : findStream (setBuffer s id []) id = some { id := i, buffer := some [] } :=
    find_setBuffer s.streams id i none [] hpending
  have hrun : (run parse s [.response id status statusText none, .readDone id]).app =
      stopSearch s.app := by
    simp only [run, List.foldl_cons, List.foldl_nil, hstep]
    simp only [step, hfind]
    rfl
  obtain ⟨h1, h2, _, h4, _⟩ := stopSearch_fields s.app
  exact ⟨hrun, by rw [hrun, h1], by rw [hrun, h2], by rw [hrun, h4]⟩

/-- C6, amended, on a fresh page where a search has just been submitted. -/
theorem empty_body_ends_silently_witness :
    findStream submitted 0 = some { id := 0, buffer := none } ∧
    (200 ≤ 200 ∧ 200 ≤ 299) ∧
    (run jsonParse submitted [.response 0 200 "OK".toList none, .readDone 0]).app.log =
      submitted.app.log ++ [.stopped] :=
  ⟨rfl, by decide,
    (empty_body_ends_silently jsonParse submitted 0 0 200 "OK".toList rfl (by decide)).2.1⟩

/-- C7, as stated, fails: a stream with both completion signals gives two completion
notifications, and a stream with a record and no completion signal gives none (and no
error), so the number of terminal notifications is not 1 for both, whether or not the
final `stopSearch` is counted as one. -/
theorem one_terminal_counterexample :
    (run jsonParse ready
      (sessionEvents 0 bothSignals)).app.log.countP isCompletion = 2 ∧
    (run jsonParse ready
      (sessionEvents 0 bothSignals)).app.log.countP isStopped = 1 ∧
    (run jsonParse ready
      (sessionEvents 0 noSignal)).app.log.countP isCompletion = 0 ∧
    (run jsonParse ready
      (sessionEvents 0 noSignal)).app.log.countP isError = 0 ∧
    (run jsonParse ready
      (sessionEvents 0 noSignal)).app.log.countP isStopped = 1 :=
  ⟨by decide, by decide, by decide, by decide, by decide⟩

/-- C7, amended. For every sequence of chunks delivered on one body, from the first read to
the end of the body, the number of completion notifications is the number of lines ending
with a newline that are completion signals; `showError` is called once when the read fails
and not at all when the body ends; and `stopSearch` runs once in both cases. -/
theorem completions_count_signals (parse : Text → Except JsError JsValue) (s : State)
    (id i : Nat) (chunks : List Text) (message : Text)
    (hopen : findStream s id = some { id := i, buffer := some [] }) :
    ((run parse s (chunks.map (Event.read id) ++ [.readDone id])).app.log.countP isCompletion =
        s.app.log.countP isCompletion +
          (popRest (split chunks.flatten)).countP isCompletionSignal ∧
      (run parse s (chunks.map (Event.read id) ++ [.readDone id])).app.log.countP isError =
        s.app.log.countP isError ∧
      (run parse s (chunks.map (Event.read id) ++ [.readDone id])).app.log.countP isStopped =
        s.app.log.countP isStopped + 1) ∧
    ((run parse s (chunks.map (Event.read id) ++
        [.readRejected id message])).app.log.countP isCompletion =
        s.app.log.countP isCompletion +
          (popRest (split chunks.flatten)).countP isCompletionSignal ∧
      (run parse s (chunks.map (Event.read id) ++
        [.readRejected id message])).app.log.countP isError = s.app.log.countP isError + 1 ∧
      (run parse s (chunks.map (Event.read id) ++
        [.readRejected id message])).app.log.countP isStopped =
        s.app.log.countP isStopped + 1) := by
  have hlines : (readAll parse s.app [] chunks).1 =
      (popRest (split chunks.flatten)).foldl (processStreamLine parse) s.app := by
    rw [foldl_frame, frame_eq _ _ split_nil]
    rfl
  obtain ⟨c1, c2, c3⟩ := foldl_counts parse (popRest (split chunks.flatten)) s.app
  constructor
  · rw [run_reads_done parse chunks s id i [] hopen]
    dsimp only
    obtain ⟨hlog, _⟩ := stopSearch_fields (readAll parse s.app [] chunks).1
    rw [hlog, hlines]
    simp only [List.countP_append, c1, c2, c3]
    simp [isCompletion, isError, isStopped]
  · rw [run_reads_rejected parse chunks s id i [] message hopen]
    obtain ⟨d1, d2, d3⟩ := catchFinally_counts (readAll parse s.app [] chunks).1 message
    rw [d1, d2, d3, hlines, c1, c2, c3]
    exact ⟨rfl, rfl, rfl⟩

/-- C7, amended, on the stream with both completion signals: two completions. -/
theorem completions_count_signals_witness :
    findStream responding 0 = some { id := 0, buffer := some [] } ∧
    (run jsonParse responding
      (bothSignals.map (Event.read 0) ++ [.readDone 0])).app.log.countP isCompletion = 2 :=
  ⟨rfl,
    (completions_count_signals jsonParse responding 0 0 bothSignals [] rfl).1.1.trans
      (by decide)⟩

/-- C8. A `data: ` line whose payload is a malformed record changes nothing but the record of
`console.warn`: the set, the page and the notifications stay as they were, and every sequence
of lines that follows is processed as it would be without the malformed line. -/
theorem malformed_record_dropped (parse : Text → Except JsError JsValue) (s : App)
    (line : Text) (following : List Text)
    (hdata : startsWith line "data: ".toList = true)
    (hsentinel : substring line 6 ≠ completionPayload)
    (hbad : Malformed parse (substring line 6)) :
    (processStreamLine parse s line = s ∨
      processStreamLine parse s line = withConsole s (s.console ++ [substring line 6])) ∧
    (processStreamLine parse s line).foundSubdomains = s.foundSubdomains ∧
    (processStreamLine parse s line).resultsDiv = s.resultsDiv ∧
    (processStreamLine parse s line).log = s.log ∧
    withConsole (following.foldl (processStreamLine parse) (processStreamLine parse s line)) [] =
      withConsole (following.foldl (processStreamLine parse) s) [] := by
  have hcases : processStreamLine parse s line = s ∨
      processStreamLine parse s line = withConsole s (s.console ++ [substring line 6]) := by
    unfold processStreamLine
    rw [if_pos hdata]
    dsimp only
    rw [if_neg hsentinel]
    unfold tryBlock
    rcases hbad with ⟨e, he⟩ | ⟨value, hv, hobj⟩ | ⟨members, hm, hfalsy⟩
    · rw [he]
      exact Or.inr rfl
    · rw [hv]
      cases value with
      | undefined => exact Or.inr rfl
      | null => exact Or.inr rfl
      | bool b => exact Or.inl rfl
      | number bits => exact Or.inl rfl
      | string t => exact Or.inl rfl
      | array elements => exact Or.inl rfl
      | object members => exact absurd rfl (hobj members)
    · rw [hm]
      dsimp only [getProp]
      by_cases ht : truthy (ownProperty members subdomainKey) = true
      · have hsrc : truthy (ownProperty members sourceKey) = false := by
          rcases hfalsy with h | h
          · rw [ht] at h; cases h
          · exact h
        rw [if_pos ht]
        rw [if_neg (by rw [hsrc]; decide)]
        exact Or.inl rfl
      · rw [if_neg ht]
        exact Or.inl rfl
  refine ⟨hcases, ?_, ?_, ?_, ?_⟩
  · rcases hcases with h | h
    · rw [h]
    · rw [h]; rfl
  · rcases hcases with h | h
    · rw [h]
    · rw [h]; rfl
  · rcases hcases with h | h
    · rw [h]
    · rw [h]; rfl
  · apply foldl_console
    rcases hcases with h | h
    · rw [h]
    · rw [h]; rfl

/-- C8 at the line `data: null`, whose payload parses to a value that is not an object. -/
theorem malformed_record_dropped_witness :
    startsWith "data: null".toList "data: ".toList = true ∧
    substring "data: null".toList 6 ≠ completionPayload ∧
    Malformed jsonParse (substring "data: null".toList 6) ∧
    (processStreamLine jsonParse (constructed [] [] false).app "data: null".toList).log = [] :=
  ⟨by decide, by decide, Or.inr (Or.inl ⟨.null, rfl, fun _ h => by cases h⟩),
    (malformed_record_dropped jsonParse (constructed [] [] false).app "data: null".toList []
      (by decide) (by decide) (Or.inr (Or.inl ⟨.null, rfl, fun _ h => by cases h⟩))).2.2.2.1⟩

/-- C9. A completion signal calls `showCompletionState`; with no accepted result it shows
the "no subdomains found" message instead of a completion of count zero, and with at least
one accepted result it reports the generic completion and leaves the shown items, the shown
count and the set unchanged. -/
theorem completion_reports_no_results (parse : Text → Except JsError JsValue) (s : App)
    (line : Text) (hsignal : isCompletionSignal line = true) :
    processStreamLine parse s line = showCompletionState s ∧
    (s.foundSubdomains = [] →
      (showCompletionState s).resultsDiv = .noSubdomains ∧
      (showCompletionState s).log = s.log ++ [.noResults]) ∧
    (s.foundSubdomains ≠ [] →
      (showCompletionState s).log = s.log ++ [.completed] ∧
      shownItems (showCompletionState s).resultsDiv = shownItems s.resultsDiv ∧
      shownCount (showCompletionState s).resultsDiv = shownCount s.resultsDiv ∧
      ∀ status hidden count items, s.resultsDiv = .results status hidden count items →
        (showCompletionState s).resultsDiv = .results completedText true count items) ∧
    (showCompletionState s).foundSubdomains = s.foundSubdomains := by
  refine ⟨processStreamLine_signal parse s line hsignal, ?_, ?_, ?_⟩
  · intro h
    simp [showCompletionState, h]
  · intro h
    have hlen : s.foundSubdomains.length ≠ 0 := by
      intro h0
      exact h (List.length_eq_zero.mp h0)
    refine ⟨?_, ?_, ?_, ?_⟩
    · simp [showCompletionState, hlen]
    · cases hv : s.resultsDiv <;>
        simp [showCompletionState, hlen, hv, shownItems, setSearchStatus, hideProgress]
    · cases hv : s.resultsDiv <;>
        simp [showCompletionState, hlen, hv, shownCount, setSearchStatus, hideProgress]
    · intro status hidden count items hv
      simp [showCompletionState, hlen, hv, setSearchStatus, hideProgress]
  · unfold showCompletionState
    split <;> rfl

/-- C9 at the line `event: complete`: in the constructed state it shows the no-results
message, and after one accepted record it reports the generic completion and keeps the
item and the count. -/
theorem completion_reports_no_results_witness :
    isCompletionSignal "event: complete".toList = true ∧
    (showCompletionState (constructed [] [] false).app).resultsDiv = .noSubdomains ∧
    (processStreamLine jsonParse (constructed [] [] false).app
      "data: \x7b\"subdomain\":\"a.example.com\",\"source\":\"DNS Enum\"\x7d".toList).foundSubdomains
        ≠ [] ∧
    shownCount (showCompletionState (processStreamLine jsonParse (constructed [] [] false).app
      "data: \x7b\"subdomain\":\"a.example.com\",\"source\":\"DNS Enum\"\x7d".toList)).resultsDiv
        = some 1 :=
  ⟨by decide,
    ((completion_reports_no_results jsonParse (constructed [] [] false).app "event: complete".toList
      (by decide)).2.1 rfl).1,
    fun h => absurd (congrArg List.length h) (by decide),
    (((completion_reports_no_results jsonParse
      (processStreamLine jsonParse (constructed [] [] false).app
        "data: \x7b\"subdomain\":\"a.example.com\",\"source\":\"DNS Enum\"\x7d".toList)
      "event: complete".toList (by decide)).2.2.1
        (fun h => absurd (congrArg List.length h) (by decide))).2.2.1).trans (by decide)⟩

/-- C10. At most one active session: in every state the page can reach, an `EventSource` and
a response body are open exactly while `isSearching` is set, one of each, and the open
`EventSource` is the one held in `currentEventSource`; so two connections of a kind are never
open at once.  While a search is active the button is disabled and a submit changes nothing,
so the active session stays the only one, whatever the input holds.  A submit that starts a
search, on an enabled button with an input that is not blank, finds every earlier connection
closed, and afterwards `isSearching` is set, the set is empty, and the open connections are
the new `EventSource` and the new request. -/
theorem at_most_one_session (parse : Text → Except JsError JsValue) (s : State)
    (hs : Reachable parse s) :
    s.app.openEventSources = s.app.currentEventSource.toList ∧
    s.app.currentEventSource.isSome = s.app.isSearching ∧
    s.streams.length = (if s.app.isSearching = true then 1 else 0) ∧
    s.app.openEventSources.length = (if s.app.isSearching = true then 1 else 0) ∧
    (s.app.isSearching = true →
      s.app.searchBtnDisabled = true ∧
      step parse s .submit = s ∧
      ∀ value, step parse (step parse s (.input value)) .submit = step parse s (.input value)) ∧
    (s.app.searchBtnDisabled = false → trim s.app.domainValue ≠ [] →
      s.streams = [] ∧ s.app.openEventSources = [] ∧
      (step parse s .submit).app.isSearching = true ∧
      (step parse s .submit).app.foundSubdomains = [] ∧
      (step parse s .submit).app.currentEventSource = some s.app.nextEventSource ∧
      (step parse s .submit).app.openEventSources = [s.app.nextEventSource] ∧
      (step parse s .submit).streams = [{ id := s.nextStream, buffer := none }]) := by
  have hone : OneSession s := reachable_oneSession parse s hs
  have hinv : HoldsItsEventSource s.app := by
    obtain ⟨label, value, disabled, events, rfl⟩ := hs
    exact run_holds parse events _ ⟨rfl, rfl⟩
  have hsources : s.app.openEventSources.length = (if s.app.isSearching = true then 1 else 0) := by
    rw [hinv.1, ← hinv.2]
    cases s.app.currentEventSource <;> rfl
  have hstreams : s.streams.length = (if s.app.isSearching = true then 1 else 0) := by
    cases hsr : s.app.isSearching with
    | false =>
      rw [hone.2 hsr]
      rfl
    | true =>
      obtain ⟨_, r, hr⟩ := hone.1 hsr
      rw [hr]
      rfl
  refine ⟨hinv.1, hinv.2, hstreams, hsources, ?_, ?_⟩
  · intro hsr
    refine ⟨(hone.1 hsr).1, ?_, ?_⟩
    · show (if s.app.searchBtnDisabled then s else handleSubmit s) = s
      rw [if_pos (hone.1 hsr).1]
    intro value
    have hd : (step parse s (.input value)).app.searchBtnDisabled = true :=
      validateInput_searching _ hsr
    show (if (step parse s (.input value)).app.searchBtnDisabled then step parse s (.input value)
      else handleSubmit (step parse s (.input value))) = step parse s (.input value)
    rw [if_pos hd]
  · intro henabled hvalue
    have hidle : s.app.isSearching = false := enabled_idle s hone henabled
    have hnone : s.streams = [] := hone.2 hidle
    obtain ⟨h1, h2, h3, h4⟩ := startSearchApp_holds s.app (trim s.app.domainValue) hinv
    rw [step_submit_idle parse s hidle henabled hvalue]
    refine ⟨hnone, ?_, h3, h4, h2, h1, ?_⟩
    · rw [hinv.1]
      cases hc : s.app.currentEventSource with
      | none => rfl
      | some source =>
        have := hinv.2
        rw [hc, hidle] at this
        cases this
    · show s.streams ++ [{ id := s.nextStream, buffer := none }] = _
      rw [hnone]
      rfl

/-- C10 on a fresh page where `example.com` has been typed: the submit starts a search that
holds the only open `EventSource` and the only request; during that search the button is
disabled and a submit changes nothing, also after the input has been edited. -/
theorem at_most_one_session_witness :
    Reachable jsonParse ready ∧
    ready.app.searchBtnDisabled = false ∧
    trim ready.app.domainValue ≠ [] ∧
    (step jsonParse ready .submit).app.openEventSources = [0] ∧
    (step jsonParse ready .submit).streams = [{ id := 0, buffer := none }] ∧
    Reachable jsonParse submitted ∧
    submitted.app.isSearching = true ∧
    submitted.app.openEventSources = [0] ∧
    submitted.streams.length = 1 ∧
    submitted.app.searchBtnDisabled = true ∧
    step jsonParse submitted .submit = submitted ∧
    step jsonParse (step jsonParse submitted (.input "example.org".toList)) .submit =
      step jsonParse submitted (.input "example.org".toList) :=
  have hready : Reachable jsonParse ready := ⟨[], [], false, [.input "example.com".toList], rfl⟩
  have hsubmitted : Reachable jsonParse submitted :=
    ⟨[], [], false, [.input "example.com".toList, .submit], rfl⟩
  have h0 := at_most_one_session jsonParse ready hready
  have h := at_most_one_session jsonParse submitted hsubmitted
  ⟨hready, rfl, by decide, (h0.2.2.2.2.2 rfl (by decide)).2.2.2.2.2.1,
    (h0.2.2.2.2.2 rfl (by decide)).2.2.2.2.2.2,
    hsubmitted, rfl, h.1.trans rfl, h.2.2.1.trans rfl, (h.2.2.2.2.1 rfl).1,
    (h.2.2.2.2.1 rfl).2.1, (h.2.2.2.2.1 rfl).2.2 "example.org".toList⟩

end SubdomainDiscovery
